import Mathlib

/-!
Shallow embedding of the oi-live-trade signal engine and portfolio ledger.

Source files: generate_signal.py (signal engine, snapshot preparation) and
portfolio_manager.py (portfolio ledger).  Money, prices and open interest are
modelled as rationals; snapshot sequences and snapshot ids as integers.
-/

/-! ## Generic list helpers -/

/-- Keep the first occurrence of every element, in order of first appearance.
Models pandas `unique()` / `drop_duplicates()` (which keep first occurrences). -/
def uniqueFirstAux [DecidableEq α] (seen : List α) : List α → List α
  | [] => []
  | a :: l => if a ∈ seen then uniqueFirstAux seen l else a :: uniqueFirstAux (a :: seen) l

def uniqueFirst [DecidableEq α] (l : List α) : List α := uniqueFirstAux [] l

/-- The element immediately before the first occurrence of `t` in the list.
Models `snap_list[snap_list.index(t) - 1]` guarded by `current_idx > 0`. -/
def prevInList (t : ℤ) : List ℤ → Option ℤ
  | a :: b :: l => if b = t then some a else prevInList t (b :: l)
  | _ => none

/-! ## Snapshot table (prepared dataframe indexed by (SNAPSHOT_SEQ, EXPIRY, STRIKE)) -/

structure Row where
  c_OI : ℚ
  c_LTP : ℚ
  p_OI : ℚ
  p_LTP : ℚ
  underlying : ℚ
  snapshot_id : ℤ
deriving DecidableEq

structure Entry where
  seq : ℤ
  expiry : String
  strike : ℚ
  row : Row
deriving DecidableEq

/-- A prepared table is the list of rows in dataframe (index-sorted) order. -/
def Table := List Entry

/-- Point lookup `df.loc[(seq, expiry, strike)]`. -/
def lookupTbl (tbl : Table) (s : ℤ) (e : String) (k : ℚ) : Option Row :=
  (List.find? (fun x => decide (x.seq = s ∧ x.expiry = e ∧ x.strike = k)) tbl).map (·.row)

/-- Sorted list of distinct snapshot sequences:
`sorted(df_r["SNAPSHOT_SEQ"].unique())`. -/
def snapList (tbl : Table) : List ℤ :=
  List.insertionSort (· ≤ ·) (uniqueFirst (List.map (·.seq) tbl))

/-- `under_by_snap.loc[t]`: first UNDERLYING_VALUE of the group for sequence t. -/
def underBySnap (tbl : Table) (t : ℤ) : Option ℚ :=
  (List.find? (fun x => decide (x.seq = t)) tbl).map (·.row.underlying)

/-- `exps_by_snap.loc[t]`: distinct expiries at sequence t in order of appearance. -/
def expsAt (tbl : Table) (t : ℤ) : List String :=
  uniqueFirst (List.map (·.expiry) (List.filter (fun x => decide (x.seq = t)) tbl))

/-- Distinct strikes at (t, expiry) in order of appearance. -/
def strikesAt (tbl : Table) (t : ℤ) (e : String) : List ℚ :=
  uniqueFirst (List.map (·.strike)
    (List.filter (fun x => decide (x.seq = t ∧ x.expiry = e)) tbl))

/-! ## Signal generation (generate_signals) -/

/-- Signal dictionaries keyed by snapshot sequence: `{t2: (expiry, strike)}`. -/
def SigMap := List (ℤ × String × ℚ)

/-- Python dict assignment `m[t] = v`: overwrite in place or append. -/
def upsertSig : SigMap → ℤ → String × ℚ → SigMap
  | [], t, v => [(t, v)]
  | p :: m, t, v => if p.1 = t then (t, v) :: m else p :: upsertSig m t v

def lookupSig (m : SigMap) (t : ℤ) : Option (String × ℚ) :=
  (List.find? (fun p => decide (p.1 = t)) m).map (·.2)

/-- Entry conditions common to the call side, apart from the directional
precondition and the cooldown: `ltp_increasing`, `ltp_3pct_move`,
`oi_5pct_growth`, `ltp_gt_5`. -/
def call_entry_ok (r0 r1 r2 : Row) : Bool :=
  decide (r2.c_LTP > r1.c_LTP) && decide (r1.c_LTP > r0.c_LTP) &&
  decide (r2.c_LTP ≥ r0.c_LTP * (103 / 100)) &&
  decide (r2.c_OI ≥ r1.c_OI * (105 / 100)) &&
  decide (r0.c_LTP > 5)

/-- Same for the put side. -/
def put_entry_ok (r0 r1 r2 : Row) : Bool :=
  decide (r2.p_LTP > r1.p_LTP) && decide (r1.p_LTP > r0.p_LTP) &&
  decide (r2.p_LTP ≥ r0.p_LTP * (103 / 100)) &&
  decide (r2.p_OI ≥ r1.p_OI * (105 / 100)) &&
  decide (r0.p_LTP > 5)

/-- Running state of the scan: the two signal dicts and the per-side
last entry snapshot sequences (initialised to -9999). -/
structure GenState where
  callSigs : SigMap
  putSigs : SigMap
  lastCall : ℤ
  lastPut : ℤ

/-- Inner loop body of generate_signals for one (expiry, strike) candidate. -/
def stepStrike (tbl : Table) (cooldown : ℤ) (t0 t1 t2 : ℤ) (incr decr : Bool)
    (exp : String) (strike : ℚ) (st : GenState) : GenState :=
  match lookupTbl tbl t0 exp strike, lookupTbl tbl t1 exp strike,
      lookupTbl tbl t2 exp strike with
  | some r0, some r1, some r2 =>
    let st1 :=
      if incr && (call_entry_ok r0 r1 r2 && decide (t2 - st.lastCall > cooldown)) then
        { st with callSigs := upsertSig st.callSigs t2 (exp, strike), lastCall := t2 }
      else st
    if decr && (put_entry_ok r0 r1 r2 && decide (t2 - st1.lastPut > cooldown)) then
      { st1 with putSigs := upsertSig st1.putSigs t2 (exp, strike), lastPut := t2 }
    else st1
  | _, _, _ => st

/-- Loop body for one consecutive triple (t0, t1, t2). -/
def stepTriple (tbl : Table) (cooldown : ℤ) (st : GenState) (tr : ℤ × ℤ × ℤ) : GenState :=
  match underBySnap tbl tr.1, underBySnap tbl tr.2.1, underBySnap tbl tr.2.2 with
  | some u0, some _, some u2 =>
    let incr := decide (u2 > u0)
    let decr := decide (u2 < u0)
    List.foldl (fun s1 exp =>
        List.foldl (fun s2 strike =>
            stepStrike tbl cooldown tr.1 tr.2.1 tr.2.2 incr decr exp strike s2)
          s1 (strikesAt tbl tr.1 exp))
      st (expsAt tbl tr.1)
  | _, _, _ => st

/-- Consecutive triples of the sorted snapshot list. -/
def triplesOf : List ℤ → List (ℤ × ℤ × ℤ)
  | t0 :: t1 :: t2 :: rest => (t0, t1, t2) :: triplesOf (t1 :: t2 :: rest)
  | _ => []

def DEFAULT_COOLDOWN : ℤ := 20
def DEFAULT_STOP_LOSS_PCT : ℚ := 1 / 2
def DEFAULT_MIN_HOLD_SNAPS : ℤ := 7

/-- generate_signals: scan all consecutive triples and all strikes, returning the
call and put buy signal dicts. -/
def generate_signals (tbl : Table) (cooldown : ℤ) : SigMap × SigMap :=
  let snaps := snapList tbl
  if snaps.length < 3 then ([], [])
  else
    let st := List.foldl (stepTriple tbl cooldown) ⟨[], [], -9999, -9999⟩ (triplesOf snaps)
    (st.callSigs, st.putSigs)

/-! ## Exit evaluation (evaluate_exit_condition) -/

/-- Structured form of the reason string returned by evaluate_exit_condition.
The optional rational carries the computed pnl percentage; `none` models the
numpy nan produced when entry_price is zero. -/
inductive ExitReason where
  | positionNotFound
  | unknownType (t : String)
  | stopLoss (pnlPct : Option ℚ)
  | minHoldNotMet (held minHold : ℤ)
  | sellSignal (pnlPct : Option ℚ)
  | noPreviousSnapshot
  | hold (pnlPct : Option ℚ) (held : ℤ)
deriving DecidableEq

/-- The pnl percentage ((curr - entry) / entry) * 100.  The dataframe values are
numpy floats, so a zero entry price yields nan (modelled as `none`) instead of
raising ZeroDivisionError. -/
def pnl_pct_of (entry curr : ℚ) : Option ℚ :=
  if entry = 0 then none else some ((curr - entry) / entry * 100)

/-- Column selectors for a position type: LTP column and OI column. -/
def selectCols (position_type : String) : Option ((Row → ℚ) × (Row → ℚ)) :=
  if position_type = "BUY_CALL" then some (Row.c_LTP, Row.c_OI)
  else if position_type = "BUY_PUT" then some (Row.p_LTP, Row.p_OI)
  else none

def evaluate_exit_condition (tbl : Table) (position_type position_expiry : String)
    (position_strike entry_price : ℚ) (entry_snapshot_seq current_snapshot_seq : ℤ)
    (stop_loss_pct : ℚ) (min_hold_snaps : ℤ) : Bool × ExitReason × Option ℚ :=
  match lookupTbl tbl current_snapshot_seq position_expiry position_strike with
  | none => (false, .positionNotFound, none)
  | some curr =>
    match selectCols position_type with
    | none => (false, .unknownType position_type, none)
    | some cols =>
      let curr_ltp := cols.1 curr
      let curr_oi := cols.2 curr
      let stop_loss_price := entry_price * (1 - stop_loss_pct)
      if curr_ltp ≤ stop_loss_price then
        (true, .stopLoss (pnl_pct_of entry_price curr_ltp), some curr_ltp)
      else
        let snapshots_held := current_snapshot_seq - entry_snapshot_seq
        if snapshots_held < min_hold_snaps then
          (false, .minHoldNotMet snapshots_held min_hold_snaps, some curr_ltp)
        else
          match prevInList current_snapshot_seq (snapList tbl) with
          | none => (false, .noPreviousSnapshot, some curr_ltp)
          | some prev_seq =>
            match lookupTbl tbl prev_seq position_expiry position_strike with
            | some prev =>
              if curr_ltp < cols.1 prev ∧ curr_oi < cols.2 prev then
                (true, .sellSignal (pnl_pct_of entry_price curr_ltp), some curr_ltp)
              else
                (false, .hold (pnl_pct_of entry_price curr_ltp) snapshots_held, some curr_ltp)
            | none =>
              (false, .hold (pnl_pct_of entry_price curr_ltp) snapshots_held, some curr_ltp)

/-! ## Top-level signal evaluation (evaluate_signal) -/

inductive NoSignalReason where
  | lessThan3Sequences
  | exitEval (r : ExitReason)
  | positionAlreadyOpen
  | cooldownActive (since cooldown : ℤ)
  | noTrigger
deriving DecidableEq

inductive SignalResult where
  | noSignal (reason : NoSignalReason)
  | sellSig (signalType : String) (seq : ℤ) (expiry : String) (strike : ℚ)
      (ltp : Option ℚ) (snapshotId : Option ℤ) (reason : ExitReason)
  | buySig (signalType : String) (seq : ℤ) (expiry : String) (strike : ℚ)
      (ltp : Option ℚ) (snapshotId : Option ℤ)
deriving DecidableEq

/-- Python truthiness of an optional string argument. -/
def truthyStr : Option String → Bool
  | none => false
  | some s => decide (s ≠ "")

/-- Python truthiness of an optional float argument (0.0 is falsy). -/
def truthyQ : Option ℚ → Bool
  | none => false
  | some q => decide (q ≠ 0)

def latest_seq_of (tbl : Table) : ℤ := ((snapList tbl).getLast?).getD 0

/-- The entry-signal tail of evaluate_signal: run generate_signals with the
default cooldown and look up the latest sequence in the signal dicts. -/
def entry_signal_for (tbl : Table) (latest_seq : ℤ) : SignalResult :=
  let sigs := generate_signals tbl DEFAULT_COOLDOWN
  match lookupSig sigs.1 latest_seq with
  | some es =>
    let r := lookupTbl tbl latest_seq es.1 es.2
    .buySig "BUY_CALL" latest_seq es.1 es.2 (r.map (·.c_LTP)) (r.map (·.snapshot_id))
  | none =>
    match lookupSig sigs.2 latest_seq with
    | some es =>
      let r := lookupTbl tbl latest_seq es.1 es.2
      .buySig "BUY_PUT" latest_seq es.1 es.2 (r.map (·.p_LTP)) (r.map (·.snapshot_id))
    | none => .noSignal .noTrigger

def evaluate_signal (tbl : Table) (has_open_position : Bool)
    (position_type position_expiry : Option String)
    (position_strike entry_price : Option ℚ)
    (entry_snapshot_seq last_buy_snapshot_seq : Option ℤ)
    (cooldown : ℤ) : SignalResult :=
  let snap_seqs := snapList tbl
  if snap_seqs.length < 3 then .noSignal .lessThan3Sequences
  else
    let latest_seq := (snap_seqs.getLast?).getD 0
    if has_open_position && truthyStr position_type && truthyStr position_expiry &&
        truthyQ position_strike && entry_price.isSome && entry_snapshot_seq.isSome then
      let pt := position_type.getD ""
      let pe := position_expiry.getD ""
      let ps := position_strike.getD 0
      let res := evaluate_exit_condition tbl pt pe ps (entry_price.getD 0)
        (entry_snapshot_seq.getD 0) latest_seq DEFAULT_STOP_LOSS_PCT DEFAULT_MIN_HOLD_SNAPS
      if res.1 then
        let sid := (lookupTbl tbl latest_seq pe ps).map (·.snapshot_id)
        let st := if pt = "BUY_CALL" then "SELL_CALL" else "SELL_PUT"
        .sellSig st latest_seq pe ps res.2.2 sid res.2.1
      else .noSignal (.exitEval res.2.1)
    else if has_open_position then .noSignal .positionAlreadyOpen
    else
      match last_buy_snapshot_seq with
      | some lbs =>
        let since := latest_seq - lbs
        if since ≤ cooldown then .noSignal (.cooldownActive since cooldown)
        else entry_signal_for tbl latest_seq
      | none => entry_signal_for tbl latest_seq

/-! ## Portfolio ledger (portfolio_manager.py) -/

namespace PortfolioManager

def LOT_SIZE : ℚ := 150
def DEFAULT_INITIAL_BALANCE : ℚ := 100000

structure Position where
  type : String
  expiry : String
  strike : ℚ
  entry_price : ℚ
  entry_cost : ℚ
  quantity : ℚ
  snapshot_id : ℤ
  snapshot_seq : ℤ
  status : String
  exit_price : Option ℚ
  exit_proceeds : Option ℚ
  pnl : Option ℚ
  pnl_pct : Option ℚ
  exit_snapshot_id : Option ℤ
  exit_snapshot_seq : Option ℤ
deriving DecidableEq

structure Trade where
  action : String
  signal_type : String
  expiry : String
  strike : ℚ
  ltp : ℚ
  amount : ℚ
  entry_price : Option ℚ
  pnl : Option ℚ
  pnl_pct : Option ℚ
  balance_before : ℚ
  balance_after : ℚ
  snapshot_id : ℤ
  snapshot_seq : ℤ
deriving DecidableEq

structure Portfolio where
  balance : ℚ
  positions : List Position
  trade_history : List Trade
  last_buy_snapshot_seq : ℤ
deriving DecidableEq

/-- A freshly created portfolio (the file-does-not-exist branch of _load_portfolio). -/
def init_portfolio (initial_balance : ℚ) : Portfolio :=
  { balance := initial_balance, positions := [], trade_history := [],
    last_buy_snapshot_seq := -9999 }

def has_open_position (p : Portfolio) : Bool :=
  decide (0 < (List.filter (fun q => q.status == "open") p.positions).length)

def get_open_position (p : Portfolio) : Option Position :=
  (List.filter (fun q => q.status == "open") p.positions).head?

def get_position_value (p : Portfolio) (current_ltp : Option ℚ) : ℚ :=
  match get_open_position p, current_ltp with
  | some pos, some ltp => ltp * pos.quantity
  | _, _ => 0

def get_total_portfolio_value (p : Portfolio) (current_ltp : Option ℚ) : ℚ :=
  p.balance + get_position_value p current_ltp

inductive BuyMsg where
  | alreadyOpen
  | insufficientBalance (need avail : ℚ)
  | bought (signal_type expiry : String) (strike ltp cost new_balance : ℚ)
deriving DecidableEq

inductive SellMsg where
  | noOpenPosition
  | sold (type expiry : String) (strike ltp proceeds pnl pnl_pct new_balance : ℚ)
deriving DecidableEq

def buy (p : Portfolio) (signal_type expiry : String) (strike ltp : ℚ)
    (snapshot_id snapshot_seq : ℤ) : (Bool × BuyMsg) × Portfolio :=
  if has_open_position p then ((false, .alreadyOpen), p)
  else
    let cost := ltp * LOT_SIZE
    let balance := p.balance
    if cost > balance then ((false, .insufficientBalance cost balance), p)
    else
      let new_balance := balance - cost
      let position : Position :=
        { type := signal_type, expiry := expiry, strike := strike, entry_price := ltp,
          entry_cost := cost, quantity := LOT_SIZE, snapshot_id := snapshot_id,
          snapshot_seq := snapshot_seq, status := "open", exit_price := none,
          exit_proceeds := none, pnl := none, pnl_pct := none, exit_snapshot_id := none,
          exit_snapshot_seq := none }
      let trade : Trade :=
        { action := "BUY", signal_type := signal_type, expiry := expiry, strike := strike,
          ltp := ltp, amount := cost, entry_price := none, pnl := none, pnl_pct := none,
          balance_before := balance, balance_after := new_balance,
          snapshot_id := snapshot_id, snapshot_seq := snapshot_seq }
      ((true, .bought signal_type expiry strike ltp cost new_balance),
        { balance := new_balance,
          positions := p.positions ++ [position],
          trade_history := p.trade_history ++ [trade],
          last_buy_snapshot_seq := snapshot_seq })

/-- Apply `f` to the first open position in the list, in place. -/
def closeFirstOpen (f : Position → Position) : List Position → List Position
  | [] => []
  | q :: rest => if q.status == "open" then f q :: rest else q :: closeFirstOpen f rest

def sell (p : Portfolio) (ltp : ℚ) (snapshot_id snapshot_seq : ℤ) :
    (Bool × SellMsg) × Portfolio :=
  match get_open_position p with
  | none => ((false, .noOpenPosition), p)
  | some pos =>
    let proceeds := ltp * LOT_SIZE
    let balance := p.balance
    let new_balance := balance + proceeds
    let entry_cost := pos.entry_cost
    let pnl := proceeds - entry_cost
    let pnl_pct := if entry_cost > 0 then pnl / entry_cost * 100 else 0
    let upd : Position → Position := fun q =>
      { q with exit_price := some ltp, exit_proceeds := some proceeds, pnl := some pnl,
               pnl_pct := some pnl_pct, status := "closed",
               exit_snapshot_id := some snapshot_id,
               exit_snapshot_seq := some snapshot_seq }
    let trade : Trade :=
      { action := "SELL", signal_type := pos.type, expiry := pos.expiry,
        strike := pos.strike, ltp := ltp, amount := proceeds,
        entry_price := some pos.entry_price, pnl := some pnl, pnl_pct := some pnl_pct,
        balance_before := balance, balance_after := new_balance,
        snapshot_id := snapshot_id, snapshot_seq := snapshot_seq }
    ((true, .sold pos.type pos.expiry pos.strike ltp proceeds pnl pnl_pct new_balance),
      { balance := new_balance,
        positions := closeFirstOpen upd p.positions,
        trade_history := p.trade_history ++ [trade],
        last_buy_snapshot_seq := p.last_buy_snapshot_seq })

structure Summary where
  cash : ℚ
  position_value : ℚ
  total_value : ℚ
  total_pnl : ℚ
  unrealized_pnl : ℚ
  unrealized_pnl_pct : ℚ
  total_trades : ℕ
  closed_positions_count : ℕ
  open_position : Option Position
deriving DecidableEq

def get_portfolio_summary (p : Portfolio) (current_ltp : Option ℚ) : Summary :=
  let open_position := get_open_position p
  let closed := List.filter (fun q => q.status == "closed") p.positions
  let total_pnl := (closed.map (fun q => q.pnl.getD 0)).sum
  let cash := p.balance
  let position_value := get_position_value p current_ltp
  let upair : ℚ × ℚ :=
    match open_position, current_ltp with
    | some pos, some ltp =>
      if ltp ≠ 0 then
        let u := (ltp - pos.entry_price) * pos.quantity
        let ec := pos.entry_price * pos.quantity
        (u, if ec > 0 then u / ec * 100 else 0)
      else (0, 0)
    | _, _ => (0, 0)
  { cash := cash, position_value := position_value,
    total_value := get_total_portfolio_value p current_ltp,
    total_pnl := total_pnl, unrealized_pnl := upair.1, unrealized_pnl_pct := upair.2,
    total_trades := p.trade_history.length, closed_positions_count := closed.length,
    open_position := open_position }

/-- Operations an external driver can perform on the ledger. -/
inductive Op where
  | buyOp (signal_type expiry : String) (strike ltp : ℚ) (snapshot_id snapshot_seq : ℤ)
  | sellOp (ltp : ℚ) (snapshot_id snapshot_seq : ℤ)
  | summaryOp (current_ltp : Option ℚ)
deriving DecidableEq

def applyOp (p : Portfolio) : Op → Portfolio
  | .buyOp st e k l sid sq => (buy p st e k l sid sq).2
  | .sellOp l sid sq => (sell p l sid sq).2
  | .summaryOp _ => p

def runOps (p : Portfolio) (ops : List Op) : Portfolio := List.foldl applyOp p ops

/-- Sell operations carry a nonnegative price; other operations unrestricted. -/
def opOk : Op → Prop
  | .sellOp l _ _ => 0 ≤ l
  | _ => True

def countOpen (p : Portfolio) : ℕ :=
  (List.filter (fun q => q.status == "open") p.positions).length

end PortfolioManager

/-! ## Snapshot sequence assignment (prepare_data) -/

/-- One raw input row of the snapshot CSV, before preparation. -/
structure RawRow where
  dl_date : ℤ
  dl_time : ℤ
  snapshot_id : ℤ
  expiry : String
  strike : ℚ
  c_OI : ℚ
  c_LTP : ℚ
  p_OI : ℚ
  p_LTP : ℚ
  underlying : ℚ
deriving DecidableEq

/-- One entry of `snap_keys`: the distinct (DOWNLOAD_DATE, SNAPSHOT_ID, TIMESTAMP)
triples.  The timestamp is the pair (dl_date, dl_time). -/
structure SnapKey where
  dl_date : ℤ
  snapshot_id : ℤ
  dl_time : ℤ
deriving DecidableEq

def SnapKey.ts (k : SnapKey) : ℤ × ℤ := (k.dl_date, k.dl_time)

def RawRow.key (r : RawRow) : SnapKey :=
  { dl_date := r.dl_date, snapshot_id := r.snapshot_id, dl_time := r.dl_time }

/-- Chronological comparison of snap keys by TIMESTAMP. -/
def tsLeKey (a b : SnapKey) : Prop :=
  a.dl_date < b.dl_date ∨ (a.dl_date = b.dl_date ∧ a.dl_time ≤ b.dl_time)

/-- Strict chronological comparison of snap keys by TIMESTAMP. -/
def tsLtKey (a b : SnapKey) : Prop :=
  a.dl_date < b.dl_date ∨ (a.dl_date = b.dl_date ∧ a.dl_time < b.dl_time)

/-- The sort key of `df.sort_values(["TIMESTAMP", "STRIKE"])`. -/
def rowLe (a b : RawRow) : Prop :=
  a.dl_date < b.dl_date ∨ (a.dl_date = b.dl_date ∧
    (a.dl_time < b.dl_time ∨ (a.dl_time = b.dl_time ∧ a.strike ≤ b.strike)))

instance : DecidableRel tsLeKey := fun a b => by unfold tsLeKey; infer_instance
instance : DecidableRel tsLtKey := fun a b => by unfold tsLtKey; infer_instance
instance : DecidableRel rowLe := fun a b => by unfold rowLe; infer_instance

instance : IsTotal SnapKey tsLeKey := by
  constructor
  intro a b
  unfold tsLeKey
  rcases lt_trichotomy a.dl_date b.dl_date with h | h | h
  · exact Or.inl (Or.inl h)
  · rcases le_total a.dl_time b.dl_time with h2 | h2
    · exact Or.inl (Or.inr ⟨h, h2⟩)
    · exact Or.inr (Or.inr ⟨h.symm, h2⟩)
  · exact Or.inr (Or.inl h)

instance : IsTrans SnapKey tsLeKey := by
  constructor
  intro a b c hab hbc
  unfold tsLeKey at *
  rcases hab with h1 | ⟨h1, h1t⟩
  · rcases hbc with h2 | ⟨h2, _⟩
    · exact Or.inl (h1.trans h2)
    · exact Or.inl (h2 ▸ h1)
  · rcases hbc with h2 | ⟨h2, h2t⟩
    · exact Or.inl (h1 ▸ h2)
    · exact Or.inr ⟨h1.trans h2, h1t.trans h2t⟩

instance : IsTotal RawRow rowLe := by
  constructor
  intro a b
  unfold rowLe
  rcases lt_trichotomy a.dl_date b.dl_date with h | h | h
  · exact Or.inl (Or.inl h)
  · rcases lt_trichotomy a.dl_time b.dl_time with h2 | h2 | h2
    · exact Or.inl (Or.inr ⟨h, Or.inl h2⟩)
    · rcases le_total a.strike b.strike with h3 | h3
      · exact Or.inl (Or.inr ⟨h, Or.inr ⟨h2, h3⟩⟩)
      · exact Or.inr (Or.inr ⟨h.symm, Or.inr ⟨h2.symm, h3⟩⟩)
    · exact Or.inr (Or.inr ⟨h.symm, Or.inl h2⟩)
  · exact Or.inr (Or.inl h)

instance : IsAntisymm SnapKey tsLtKey := by
  constructor
  intro a b hab hba
  exfalso
  rcases hab with h1 | ⟨h1, h1t⟩ <;> rcases hba with h2 | ⟨h2, h2t⟩
  · exact absurd (h1.trans h2) (lt_irrefl _)
  · exact absurd h1 (h2 ▸ lt_irrefl _)
  · exact absurd h2 (h1 ▸ lt_irrefl _)
  · exact absurd (h1t.trans h2t) (lt_irrefl _)

/-- The `snap_keys` list of prepare_data: sort the rows chronologically, take the
distinct (date, id, timestamp) keys in order of first appearance, and sort those
keys by timestamp.  Row index in this list is the assigned SNAPSHOT_SEQ. -/
def snap_keys (rows : List RawRow) : List SnapKey :=
  List.insertionSort tsLeKey
    (uniqueFirst (List.map RawRow.key (List.insertionSort rowLe rows)))

/-- The sequence number merged onto every row carrying the given key. -/
def snapshot_seq_of (rows : List RawRow) (k : SnapKey) : ℕ :=
  List.indexOf k (snap_keys rows)

/-! ## Helper lemmas about uniqueFirst -/

theorem mem_uniqueFirstAux [DecidableEq α] (seen : List α) (l : List α) (x : α) :
    x ∈ uniqueFirstAux seen l ↔ x ∈ l ∧ x ∉ seen := by
  induction l generalizing seen with
  | nil => simp [uniqueFirstAux]
  | cons a l ih =>
    by_cases ha : a ∈ seen
    · rw [uniqueFirstAux, if_pos ha, ih]
      constructor
      · rintro ⟨hx, hs⟩; exact ⟨List.mem_cons_of_mem _ hx, hs⟩
      · rintro ⟨hx, hs⟩
        rcases List.mem_cons.1 hx with rfl | hx
        · exact absurd ha hs
        · exact ⟨hx, hs⟩
    · rw [uniqueFirstAux, if_neg ha]
      constructor
      · intro hx
        rcases List.mem_cons.1 hx with rfl | hx
        · exact ⟨List.mem_cons_self _ _, ha⟩
        · rcases (ih _).1 hx with ⟨h1, h2⟩
          refine ⟨List.mem_cons_of_mem _ h1, fun hs => h2 (List.mem_cons_of_mem _ hs)⟩
      · rintro ⟨hx, hs⟩
        rcases List.mem_cons.1 hx with rfl | hx
        · exact List.mem_cons_self _ _
        · by_cases hxa : x = a
          · subst hxa; exact List.mem_cons_self _ _
          · exact List.mem_cons_of_mem _ ((ih _).2 ⟨hx, by
              intro hmem
              rcases List.mem_cons.1 hmem with h | h
              · exact hxa h
              · exact hs h⟩)

theorem mem_uniqueFirst [DecidableEq α] (l : List α) (x : α) :
    x ∈ uniqueFirst l ↔ x ∈ l := by
  rw [uniqueFirst, mem_uniqueFirstAux]
  simp

theorem nodup_uniqueFirstAux [DecidableEq α] (seen : List α) (l : List α) :
    (uniqueFirstAux seen l).Nodup := by
  induction l generalizing seen with
  | nil => simp [uniqueFirstAux]
  | cons a l ih =>
    by_cases ha : a ∈ seen
    · rw [uniqueFirstAux, if_pos ha]; exact ih seen
    · rw [uniqueFirstAux, if_neg ha]
      refine List.Nodup.cons ?_ (ih (a :: seen))
      intro hmem
      exact ((mem_uniqueFirstAux _ _ _).1 hmem).2 (List.mem_cons_self _ _)

theorem nodup_uniqueFirst [DecidableEq α] (l : List α) : (uniqueFirst l).Nodup :=
  nodup_uniqueFirstAux [] l

/-! ## Ledger helper lemmas -/

namespace PortfolioManager

theorem has_open_false_iff (p : Portfolio) :
    has_open_position p = false ↔ ∀ q ∈ p.positions, q.status ≠ "open" := by
  unfold has_open_position
  rw [decide_eq_false_iff_not, not_lt, Nat.le_zero, List.length_eq_zero,
    List.filter_eq_nil_iff]
  constructor
  · intro h q hq hs
    exact h q hq (by simp [hs])
  · intro h q hq hs
    exact h q hq (by simpa using hs)

theorem filter_open_eq_nil (p : Portfolio) (h : has_open_position p = false) :
    List.filter (fun q => q.status == "open") p.positions = [] := by
  rw [List.filter_eq_nil_iff]
  intro q hq
  simpa using (has_open_false_iff p).1 h q hq

theorem closeFirstOpen_append_open (f : Position → Position) (l : List Position)
    (q : Position) (h : ∀ x ∈ l, x.status ≠ "open") (hq : q.status = "open") :
    closeFirstOpen f (l ++ [q]) = l ++ [f q] := by
  induction l with
  | nil => simp [closeFirstOpen, hq]
  | cons a l ih =>
    have ha : a.status ≠ "open" := h a (List.mem_cons_self _ _)
    simp only [List.cons_append, closeFirstOpen]
    rw [if_neg (by simpa using ha)]
    show a :: closeFirstOpen f (l ++ [q]) = a :: (l ++ [f q])
    rw [ih (fun x hx => h x (List.mem_cons_of_mem _ hx))]

def countOpenL (l : List Position) : ℕ :=
  (List.filter (fun q => q.status == "open") l).length

theorem countOpenL_closeFirstOpen (f : Position → Position)
    (hf : ∀ q, (f q).status = "closed") (l : List Position) :
    countOpenL (closeFirstOpen f l) ≤ countOpenL l := by
  induction l with
  | nil => simp [closeFirstOpen]
  | cons a l ih =>
    by_cases ha : a.status == "open"
    · rw [closeFirstOpen, if_pos ha]
      have hfa : ((f a).status == "open") = false := by simp [hf a]
      simp [countOpenL, List.filter_cons, hfa, ha]
    · rw [closeFirstOpen, if_neg (by simpa using ha)]
      simp only [countOpenL, List.filter_cons, ha]
      exact ih

end PortfolioManager


namespace PortfolioManager

theorem filter_open_append_open (ps : List Position) (q : Position)
    (h : ∀ x ∈ ps, x.status ≠ "open") (hq : q.status = "open") :
    List.filter (fun r => r.status == "open") (ps ++ [q]) = [q] := by
  rw [List.filter_append]
  have h1 : List.filter (fun r => r.status == "open") ps = [] := by
    rw [List.filter_eq_nil_iff]
    intro x hx
    simpa using h x hx
  rw [h1]
  simp [hq]

/-- The position record appended by a successful buy. -/
def mkOpenPosition (st e : String) (k ltp : ℚ) (sid sq : ℤ) : Position :=
  { type := st, expiry := e, strike := k, entry_price := ltp,
    entry_cost := ltp * LOT_SIZE, quantity := LOT_SIZE, snapshot_id := sid,
    snapshot_seq := sq, status := "open", exit_price := none, exit_proceeds := none,
    pnl := none, pnl_pct := none, exit_snapshot_id := none, exit_snapshot_seq := none }

/-- The trade record appended by a successful buy. -/
def mkBuyTrade (p : Portfolio) (st e : String) (k ltp : ℚ) (sid sq : ℤ) : Trade :=
  { action := "BUY", signal_type := st, expiry := e, strike := k, ltp := ltp,
    amount := ltp * LOT_SIZE, entry_price := none, pnl := none, pnl_pct := none,
    balance_before := p.balance, balance_after := p.balance - ltp * LOT_SIZE,
    snapshot_id := sid, snapshot_seq := sq }

/-- The ledger state after a successful buy. -/
def afterBuy (p : Portfolio) (st e : String) (k ltp : ℚ) (sid sq : ℤ) : Portfolio :=
  { balance := p.balance - ltp * LOT_SIZE,
    positions := p.positions ++ [mkOpenPosition st e k ltp sid sq],
    trade_history := p.trade_history ++ [mkBuyTrade p st e k ltp sid sq],
    last_buy_snapshot_seq := sq }

theorem buy_fst (p : Portfolio) (st e : String) (k ltp : ℚ) (sid sq : ℤ)
    (hopen : has_open_position p = false) (hfunds : ltp * LOT_SIZE ≤ p.balance) :
    (buy p st e k ltp sid sq).1.1 = true := by
  rw [buy, if_neg (by simp [hopen]), if_neg (not_lt.2 hfunds)]

theorem buy_snd (p : Portfolio) (st e : String) (k ltp : ℚ) (sid sq : ℤ)
    (hopen : has_open_position p = false) (hfunds : ltp * LOT_SIZE ≤ p.balance) :
    (buy p st e k ltp sid sq).2 = afterBuy p st e k ltp sid sq := by
  rw [buy, if_neg (by simp [hopen]), if_neg (not_lt.2 hfunds)]
  exact rfl

/-- The in-place closing update applied by sell to the first open position. -/
def closePositionUpd (ltp : ℚ) (sid sq : ℤ) (entry_cost : ℚ) (q : Position) : Position :=
  { q with exit_price := some ltp, exit_proceeds := some (ltp * LOT_SIZE),
           pnl := some (ltp * LOT_SIZE - entry_cost),
           pnl_pct := some (if entry_cost > 0
             then (ltp * LOT_SIZE - entry_cost) / entry_cost * 100 else 0),
           status := "closed", exit_snapshot_id := some sid,
           exit_snapshot_seq := some sq }

/-- The trade record appended by a successful sell. -/
def mkSellTrade (p : Portfolio) (pos : Position) (ltp : ℚ) (sid sq : ℤ) : Trade :=
  { action := "SELL", signal_type := pos.type, expiry := pos.expiry,
    strike := pos.strike, ltp := ltp, amount := ltp * LOT_SIZE,
    entry_price := some pos.entry_price, pnl := some (ltp * LOT_SIZE - pos.entry_cost),
    pnl_pct := some (if pos.entry_cost > 0
      then (ltp * LOT_SIZE - pos.entry_cost) / pos.entry_cost * 100 else 0),
    balance_before := p.balance, balance_after := p.balance + ltp * LOT_SIZE,
    snapshot_id := sid, snapshot_seq := sq }

/-- The ledger state after a successful sell. -/
def afterSell (p : Portfolio) (pos : Position) (ltp : ℚ) (sid sq : ℤ) : Portfolio :=
  { balance := p.balance + ltp * LOT_SIZE,
    positions := closeFirstOpen (closePositionUpd ltp sid sq pos.entry_cost) p.positions,
    trade_history := p.trade_history ++ [mkSellTrade p pos ltp sid sq],
    last_buy_snapshot_seq := p.last_buy_snapshot_seq }

theorem sell_fst (p : Portfolio) (pos : Position) (ltp : ℚ) (sid sq : ℤ)
    (h : get_open_position p = some pos) : (sell p ltp sid sq).1.1 = true := by
  rw [sell, h]

theorem sell_snd (p : Portfolio) (pos : Position) (ltp : ℚ) (sid sq : ℤ)
    (h : get_open_position p = some pos) :
    (sell p ltp sid sq).2 = afterSell p pos ltp sid sq := by
  rw [sell, h]
  exact rfl

theorem get_open_afterBuy (p : Portfolio) (st e : String) (k ltp : ℚ) (sid sq : ℤ)
    (hopen : has_open_position p = false) :
    get_open_position (afterBuy p st e k ltp sid sq)
      = some (mkOpenPosition st e k ltp sid sq) := by
  show (List.filter (fun r => r.status == "open")
    (p.positions ++ [mkOpenPosition st e k ltp sid sq])).head? = _
  rw [filter_open_append_open _ _ ((has_open_false_iff p).1 hopen) rfl]
  rfl

/-- C2: with no open position and cash0 at least ltp1 times the lot size, buy at
ltp1 then sell at ltp2 both succeed, final cash is cash0 - ltp1*lot + ltp2*lot,
and exactly one new position exists, CLOSED, with pnl = (ltp2 - ltp1)*lot. -/
theorem C2_buy_sell_roundtrip (p : Portfolio) (st e : String) (k ltp1 ltp2 : ℚ)
    (sid1 sq1 sid2 sq2 : ℤ)
    (hopen : has_open_position p = false)
    (hfunds : ltp1 * LOT_SIZE ≤ p.balance) :
    (buy p st e k ltp1 sid1 sq1).1.1 = true ∧
    (sell (buy p st e k ltp1 sid1 sq1).2 ltp2 sid2 sq2).1.1 = true ∧
    (sell (buy p st e k ltp1 sid1 sq1).2 ltp2 sid2 sq2).2.balance
      = p.balance - ltp1 * LOT_SIZE + ltp2 * LOT_SIZE ∧
    ∃ pos : Position,
      (sell (buy p st e k ltp1 sid1 sq1).2 ltp2 sid2 sq2).2.positions
        = p.positions ++ [pos] ∧
      pos.status = "closed" ∧ pos.pnl = some ((ltp2 - ltp1) * LOT_SIZE) := by
  have hb2 := buy_snd p st e k ltp1 sid1 sq1 hopen hfunds
  have hget := get_open_afterBuy p st e k ltp1 sid1 sq1 hopen
  refine ⟨buy_fst p st e k ltp1 sid1 sq1 hopen hfunds, ?_, ?_, ?_⟩
  · rw [hb2]
    exact sell_fst _ _ ltp2 sid2 sq2 hget
  · rw [hb2, sell_snd _ _ ltp2 sid2 sq2 hget]
    show p.balance - ltp1 * LOT_SIZE + ltp2 * LOT_SIZE = _
    rfl
  · rw [hb2, sell_snd _ _ ltp2 sid2 sq2 hget]
    refine ⟨closePositionUpd ltp2 sid2 sq2
      (mkOpenPosition st e k ltp1 sid1 sq1).entry_cost
      (mkOpenPosition st e k ltp1 sid1 sq1), ?_, rfl, ?_⟩
    · show closeFirstOpen _ (p.positions ++ [mkOpenPosition st e k ltp1 sid1 sq1]) = _
      exact closeFirstOpen_append_open _ _ _ ((has_open_false_iff p).1 hopen) rfl
    · show some (ltp2 * LOT_SIZE - (mkOpenPosition st e k ltp1 sid1 sq1).entry_cost)
        = some ((ltp2 - ltp1) * LOT_SIZE)
      have hec : (mkOpenPosition st e k ltp1 sid1 sq1).entry_cost = ltp1 * LOT_SIZE := rfl
      rw [hec]
      congr 1
      ring

/-- C2 witness: concrete round trip from a fresh ledger, buy at 10 and sell at 12. -/
theorem C2_buy_sell_roundtrip_witness :
    has_open_position (init_portfolio 100000) = false ∧
    (10 : ℚ) * LOT_SIZE ≤ (init_portfolio 100000).balance ∧
    (sell (buy (init_portfolio 100000) "BUY_CALL" "E" 100 10 1 1).2 12 2 2).2.balance
      = (init_portfolio 100000).balance - 10 * LOT_SIZE + 12 * LOT_SIZE := by
  have h0 : has_open_position (init_portfolio 100000) = false := by decide
  have h1 : (10 : ℚ) * LOT_SIZE ≤ (init_portfolio 100000).balance := by
    norm_num [LOT_SIZE, init_portfolio]
  exact ⟨h0, h1,
    (C2_buy_sell_roundtrip (init_portfolio 100000) "BUY_CALL" "E" 100 10 12
      1 1 2 2 h0 h1).2.2.1⟩

/-- C4: buy fails with the already-open message when a position is open, and
otherwise with the insufficient-balance message when cost exceeds cash; in both
cases the entire ledger state is returned unchanged. -/
theorem C4_buy_failure_no_state_change (p : Portfolio) (st e : String) (k ltp : ℚ)
    (sid sq : ℤ) :
    (has_open_position p = true →
      buy p st e k ltp sid sq = ((false, .alreadyOpen), p)) ∧
    (has_open_position p = false → ltp * LOT_SIZE > p.balance →
      buy p st e k ltp sid sq
        = ((false, .insufficientBalance (ltp * LOT_SIZE) p.balance), p)) := by
  constructor
  · intro h
    rw [buy, if_pos h]
  · intro h hgt
    rw [buy, if_neg (by simp [h]), if_pos hgt]

/-- C4 witness: both failure branches at concrete ledgers. -/
theorem C4_buy_failure_no_state_change_witness :
    buy { balance := 500, positions := [mkOpenPosition "BUY_CALL" "E" 100 10 1 1],
          trade_history := [], last_buy_snapshot_seq := 1 } "BUY_PUT" "E" 200 10 2 2
      = ((false, .alreadyOpen),
         { balance := 500, positions := [mkOpenPosition "BUY_CALL" "E" 100 10 1 1],
           trade_history := [], last_buy_snapshot_seq := 1 }) ∧
    buy (init_portfolio 100000) "BUY_CALL" "E" 100 1000 1 1
      = ((false, .insufficientBalance ((1000 : ℚ) * LOT_SIZE)
          (init_portfolio 100000).balance), init_portfolio 100000) := by
  constructor
  · exact (C4_buy_failure_no_state_change _ "BUY_PUT" "E" 200 10 2 2).1 (by decide)
  · exact (C4_buy_failure_no_state_change (init_portfolio 100000) "BUY_CALL" "E"
      100 1000 1 1).2 (by decide) (by norm_num [init_portfolio, LOT_SIZE])

/-- C3 counterexample: the claim quantifies over every operation sequence, but a
sell at a negative price drives cash negative: buy at ltp 0, then sell at
ltp -1000, leaves balance -150000 + 100000 < 0. -/
theorem C3_counterexample :
    (runOps (init_portfolio 100000)
      [.buyOp "BUY_CALL" "E" 100 0 0 0, .sellOp (-1000) 1 1]).balance < 0 := by
  have ho : has_open_position (init_portfolio 100000) = false := by decide
  have hf : (0 : ℚ) * LOT_SIZE ≤ (init_portfolio 100000).balance := by
    norm_num [LOT_SIZE, init_portfolio]
  show (sell (buy (init_portfolio 100000) "BUY_CALL" "E" 100 0 0 0).2 (-1000) 1 1).2.balance < 0
  rw [buy_snd _ _ _ _ _ _ _ ho hf,
    sell_snd _ _ _ _ _ (get_open_afterBuy _ _ _ _ _ _ _ ho)]
  show (init_portfolio 100000).balance - 0 * LOT_SIZE + (-1000) * LOT_SIZE < 0
  norm_num [init_portfolio, LOT_SIZE]

/-- C3 amended: starting from a fresh ledger with nonnegative initial balance,
for every operation sequence whose sell prices are nonnegative, every reachable
state has at most one open position and nonnegative cash. -/
theorem C3_invariants (bal : ℚ) (ops : List Op) (hbal : 0 ≤ bal)
    (hops : ∀ op ∈ ops, opOk op) :
    countOpen (runOps (init_portfolio bal) ops) ≤ 1 ∧
    0 ≤ (runOps (init_portfolio bal) ops).balance := by
  have hstep : ∀ (p : Portfolio) (op : Op), opOk op → countOpen p ≤ 1 →
      0 ≤ p.balance → countOpen (applyOp p op) ≤ 1 ∧ 0 ≤ (applyOp p op).balance := by
    intro p op hok h1 h2
    cases op with
    | buyOp st e k l sid sq =>
      show countOpen (buy p st e k l sid sq).2 ≤ 1 ∧ 0 ≤ (buy p st e k l sid sq).2.balance
      by_cases ho : has_open_position p = true
      · rw [buy, if_pos ho]
        exact ⟨h1, h2⟩
      · have ho' : has_open_position p = false := by simpa using ho
        by_cases hc : l * LOT_SIZE > p.balance
        · rw [buy, if_neg (by simp [ho']), if_pos hc]
          exact ⟨h1, h2⟩
        · rw [buy_snd p st e k l sid sq ho' (not_lt.1 hc)]
          constructor
          · show countOpenL (p.positions ++ [mkOpenPosition st e k l sid sq]) ≤ 1
            unfold countOpenL
            rw [filter_open_append_open _ _ ((has_open_false_iff p).1 ho') rfl]
            simp
          · show 0 ≤ p.balance - l * LOT_SIZE
            have := not_lt.1 hc
            linarith
    | sellOp l sid sq =>
      show countOpen (sell p l sid sq).2 ≤ 1 ∧ 0 ≤ (sell p l sid sq).2.balance
      cases hg : get_open_position p with
      | none =>
        rw [sell, hg]
        exact ⟨h1, h2⟩
      | some pos =>
        rw [sell_snd p pos l sid sq hg]
        constructor
        · show countOpenL (closeFirstOpen (closePositionUpd l sid sq pos.entry_cost)
            p.positions) ≤ 1
          exact le_trans (countOpenL_closeFirstOpen _ (fun q => rfl) _) h1
        · show 0 ≤ p.balance + l * LOT_SIZE
          have hl : (0 : ℚ) ≤ l := hok
          have hml : (0 : ℚ) ≤ l * LOT_SIZE := mul_nonneg hl (by norm_num [LOT_SIZE])
          linarith
    | summaryOp l => exact ⟨h1, h2⟩
  have key : ∀ (ops : List Op) (p : Portfolio), (∀ op ∈ ops, opOk op) →
      countOpen p ≤ 1 → 0 ≤ p.balance →
      countOpen (runOps p ops) ≤ 1 ∧ 0 ≤ (runOps p ops).balance := by
    intro ops
    induction ops with
    | nil => intro p _ h1 h2; exact ⟨h1, h2⟩
    | cons op rest ih =>
      intro p hops h1 h2
      have hop := hops op (List.mem_cons_self _ _)
      have h3 := hstep p op hop h1 h2
      exact ih (applyOp p op) (fun o ho => hops o (List.mem_cons_of_mem _ ho)) h3.1 h3.2
  refine key ops (init_portfolio bal) hops ?_ hbal
  show countOpenL [] ≤ 1
  simp [countOpenL]

/-- C3 amended witness: a concrete trace of buy, sell and summary operations. -/
theorem C3_invariants_witness :
    countOpen (runOps (init_portfolio 100000)
      [.buyOp "BUY_CALL" "E" 100 10 1 1, .summaryOp (some 11), .sellOp 12 2 2]) ≤ 1 ∧
    0 ≤ (runOps (init_portfolio 100000)
      [.buyOp "BUY_CALL" "E" 100 10 1 1, .summaryOp (some 11), .sellOp 12 2 2]).balance := by
  refine C3_invariants 100000 _ (by norm_num) ?_
  intro op hop
  simp only [List.mem_cons, List.not_mem_nil, or_false] at hop
  rcases hop with rfl | rfl | rfl
  · trivial
  · trivial
  · show (0 : ℚ) ≤ 12
    norm_num

end PortfolioManager

/-! ## Claim theorems about the signal engine -/

def row_ (coi cltp poi pltp und : ℚ) (sid : ℤ) : Row :=
  { c_OI := coi, c_LTP := cltp, p_OI := poi, p_LTP := pltp,
    underlying := und, snapshot_id := sid }

/-- C1: ordered exit rules of evaluate_exit_condition when the current sequence
contains the position contract: stop loss exits immediately regardless of hold
time; otherwise below minimum hold never exits; otherwise it exits exactly when
the previous present sequence has the contract and both LTP and OI fall. -/
theorem C1_exit_rules (tbl : Table) (pt pe : String) (ps ep : ℚ) (es t : ℤ)
    (slp : ℚ) (mh : ℤ) (cols : (Row → ℚ) × (Row → ℚ)) (curr : Row)
    (hcols : selectCols pt = some cols)
    (hcurr : lookupTbl tbl t pe ps = some curr) :
    (cols.1 curr ≤ ep * (1 - slp) →
      evaluate_exit_condition tbl pt pe ps ep es t slp mh
        = (true, .stopLoss (pnl_pct_of ep (cols.1 curr)), some (cols.1 curr))) ∧
    (¬(cols.1 curr ≤ ep * (1 - slp)) → t - es < mh →
      evaluate_exit_condition tbl pt pe ps ep es t slp mh
        = (false, .minHoldNotMet (t - es) mh, some (cols.1 curr))) ∧
    (¬(cols.1 curr ≤ ep * (1 - slp)) → ¬(t - es < mh) →
      ((evaluate_exit_condition tbl pt pe ps ep es t slp mh).1 = true ↔
        ∃ pseq prev, prevInList t (snapList tbl) = some pseq ∧
          lookupTbl tbl pseq pe ps = some prev ∧
          cols.1 curr < cols.1 prev ∧ cols.2 curr < cols.2 prev)) := by
  refine ⟨?_, ?_, ?_⟩
  · intro h
    simp only [evaluate_exit_condition, hcurr, hcols]
    rw [if_pos h]
  · intro h1 h2
    simp only [evaluate_exit_condition, hcurr, hcols]
    rw [if_neg h1, if_pos h2]
  · intro h1 h2
    simp only [evaluate_exit_condition, hcurr, hcols]
    rw [if_neg h1, if_neg h2]
    split
    next hprev => simp [hprev]
    next pseq hprev =>
      split
      next prev hpl =>
        by_cases hc : cols.1 curr < cols.1 prev ∧ cols.2 curr < cols.2 prev
        · rw [if_pos hc]
          simp [hprev, hpl, hc]
        · rw [if_neg hc]
          simp [hprev, hpl, hc]
      next hpl => simp [hprev, hpl]

def tblC1 : Table :=
  [⟨0, "E", 100, row_ 100 60 0 0 100 0⟩, ⟨7, "E", 100, row_ 90 49 0 0 100 7⟩]

/-- C1 witness: entry price 100, stop-loss fraction 0.5, current LTP 49 at
sequence 7 exits immediately with the stop-loss reason. -/
theorem C1_exit_rules_witness :
    evaluate_exit_condition tblC1 "BUY_CALL" "E" 100 100 0 7 (1 / 2) 7
      = (true, .stopLoss (pnl_pct_of 100 49), some 49) := by
  have hcols : selectCols "BUY_CALL" = some (Row.c_LTP, Row.c_OI) := rfl
  have hcurr : lookupTbl tblC1 7 "E" 100 = some (row_ 90 49 0 0 100 7) := rfl
  exact (C1_exit_rules tblC1 "BUY_CALL" "E" 100 100 0 7 (1 / 2) 7 _ _ hcols hcurr).1
    (by show (49 : ℚ) ≤ 100 * (1 - 1 / 2); norm_num)

/-- C9: division protections. With entry price 0, evaluate_exit_condition still
returns a defined triple whose ltp component is the current LTP; the pnl
percentage becomes nan (none) but never drives control flow.  And sell computes
pnl_pct = 0 when the entry cost is 0 thanks to its explicit guard. -/
theorem C9_division_by_zero (tbl : Table) (pe : String) (ps : ℚ) (es t : ℤ)
    (slp : ℚ) (mh : ℤ) (curr : Row)
    (hcurr : lookupTbl tbl t pe ps = some curr) :
    ((evaluate_exit_condition tbl "BUY_CALL" pe ps 0 es t slp mh).2.2
        = some curr.c_LTP ∧
      pnl_pct_of 0 curr.c_LTP = none) ∧
    (∀ (p : PortfolioManager.Portfolio) (pos : PortfolioManager.Position)
        (ltp : ℚ) (sid sq : ℤ),
      PortfolioManager.get_open_position p = some pos → pos.entry_cost = 0 →
      ((PortfolioManager.sell p ltp sid sq).2.trade_history.getLast?).map
          PortfolioManager.Trade.pnl_pct = some (some 0)) := by
  constructor
  · have hcols : selectCols "BUY_CALL" = some (Row.c_LTP, Row.c_OI) := rfl
    refine ⟨?_, by simp [pnl_pct_of]⟩
    simp only [evaluate_exit_condition, hcurr, hcols]
    split_ifs with h1 h2
    · rfl
    · rfl
    · split
      next hprev => rfl
      next pseq hprev =>
        split
        next prev hpl => split_ifs with h3 <;> rfl
        next hpl => rfl
  · intro p pos ltp sid sq hg hec
    rw [PortfolioManager.sell_snd p pos ltp sid sq hg]
    show ((p.trade_history ++
      [PortfolioManager.mkSellTrade p pos ltp sid sq]).getLast?).map
        PortfolioManager.Trade.pnl_pct = some (some 0)
    simp [List.getLast?_concat, PortfolioManager.mkSellTrade, hec]

def pC9 : PortfolioManager.Portfolio :=
  { balance := 0, positions := [PortfolioManager.mkOpenPosition "BUY_CALL" "E" 100 0 1 1],
    trade_history := [], last_buy_snapshot_seq := 1 }

/-- C9 witness: entry price 0 on the concrete table, and a sell closing a
position whose entry cost is 0. -/
theorem C9_division_by_zero_witness :
    (evaluate_exit_condition tblC1 "BUY_CALL" "E" 100 0 0 7 (1 / 2) 7).2.2 = some 49 ∧
    ((PortfolioManager.sell pC9 10 1 1).2.trade_history.getLast?).map
      PortfolioManager.Trade.pnl_pct = some (some 0) := by
  have hcurr : lookupTbl tblC1 7 "E" 100 = some (row_ 90 49 0 0 100 7) := rfl
  have h := C9_division_by_zero tblC1 "E" 100 0 7 (1 / 2) 7 _ hcurr
  refine ⟨h.1.1, h.2 pC9 _ 10 1 1 rfl ?_⟩
  show (0 : ℚ) * PortfolioManager.LOT_SIZE = 0
  norm_num

/-- C10: with fewer than 3 distinct snapshot sequences, evaluate_signal returns
NO_SIGNAL with the insufficient-history reason for every position context,
before any exit evaluation runs. -/
theorem C10_insufficient_history (tbl : Table) (hop : Bool)
    (pt pe : Option String) (ps ep : Option ℚ) (es lbs : Option ℤ) (cd : ℤ)
    (h : (snapList tbl).length < 3) :
    evaluate_signal tbl hop pt pe ps ep es lbs cd = .noSignal .lessThan3Sequences := by
  simp only [evaluate_signal]
  rw [if_pos h]

def tblC10 : Table :=
  [⟨0, "E", 100, row_ 100 100 0 0 100 0⟩, ⟨1, "E", 100, row_ 90 10 0 0 100 1⟩]

/-- C10 witness: a 2-sequence table with an open position whose stop-loss
condition holds (LTP 10 at entry price 100) still yields the
insufficient-history NO_SIGNAL. -/
theorem C10_insufficient_history_witness :
    (snapList tblC10).length < 3 ∧
    (10 : ℚ) ≤ 100 * (1 - 1 / 2) ∧
    evaluate_signal tblC10 true (some "BUY_CALL") (some "E") (some 100) (some 100)
      (some 0) none 20 = .noSignal .lessThan3Sequences := by
  have hlen : (snapList tblC10).length < 3 := by decide
  exact ⟨hlen, by norm_num,
    C10_insufficient_history tblC10 true _ _ _ _ _ none 20 hlen⟩

/-! ## Concrete tables for the entry-scenario claims -/

def tbl7a : Table :=
  [⟨0, "E", 100, row_ 100 10 0 0 100 0⟩,
   ⟨1, "E", 100, row_ 110 10.5 0 0 101 1⟩,
   ⟨2, "E", 100, row_ 120 10.4 0 0 103 2⟩]

/-- C7 counterexample: call LTP path [10, 10.5, 10.4] with OI [100, 110, 120] and
underlying increasing satisfies the ratio conditions of the claim, yet yields no
BUY_CALL at t2 because 10.4 < 10.5 fails the strict three-point increase. -/
theorem C7_counterexample :
    (10.4 : ℚ) ≥ 10 * 1.03 ∧ (120 : ℚ) ≥ 110 * 1.05 ∧
    lookupSig (generate_signals tbl7a DEFAULT_COOLDOWN).1 2 = none := by
  refine ⟨by norm_num, by norm_num, ?_⟩
  norm_num [generate_signals, snapList, uniqueFirst, uniqueFirstAux, triplesOf,
    stepTriple, stepStrike, underBySnap, expsAt, strikesAt, lookupTbl, lookupSig,
    upsertSig, call_entry_ok, put_entry_ok, List.insertionSort, List.orderedInsert,
    List.find?, List.filter, tbl7a, row_, DEFAULT_COOLDOWN]

def tbl7b : Table :=
  [⟨0, "E", 100, row_ 100 10 0 0 100 0⟩,
   ⟨1, "E", 100, row_ 110 10.2 0 0 101 1⟩,
   ⟨2, "E", 100, row_ 120 10.4 0 0 103 2⟩]

def tbl7c : Table :=
  [⟨0, "E", 100, row_ 100 10 0 0 100 0⟩,
   ⟨1, "E", 100, row_ 110 11 0 0 101 1⟩,
   ⟨2, "E", 100, row_ 120 10.5 0 0 103 2⟩]

/-- C7 amended: with a strictly increasing call LTP path [10, 10.2, 10.4]
(total move 4 percent), OI [100, 110, 120] and underlying increasing, a
BUY_CALL signal is produced at t2 for that strike; the non-monotone path
[10, 11, 10.5] yields no signal because it fails momentum. -/
theorem C7_entry_scenario :
    lookupSig (generate_signals tbl7b DEFAULT_COOLDOWN).1 2 = some ("E", 100) ∧
    lookupSig (generate_signals tbl7c DEFAULT_COOLDOWN).1 2 = none := by
  constructor
  · norm_num [generate_signals, snapList, uniqueFirst, uniqueFirstAux, triplesOf,
      stepTriple, stepStrike, underBySnap, expsAt, strikesAt, lookupTbl, lookupSig,
      upsertSig, call_entry_ok, put_entry_ok, List.insertionSort, List.orderedInsert,
      List.find?, List.filter, tbl7b, row_, DEFAULT_COOLDOWN]
  · norm_num [generate_signals, snapList, uniqueFirst, uniqueFirstAux, triplesOf,
      stepTriple, stepStrike, underBySnap, expsAt, strikesAt, lookupTbl, lookupSig,
      upsertSig, call_entry_ok, put_entry_ok, List.insertionSort, List.orderedInsert,
      List.find?, List.filter, tbl7c, row_, DEFAULT_COOLDOWN]

/-! ## Cooldown and tie-breaking structure of the strike scan -/

theorem lookupSig_upsert (m : SigMap) (t : ℤ) (v : String × ℚ) :
    lookupSig (upsertSig m t v) t = some v := by
  induction m with
  | nil => simp [upsertSig, lookupSig, List.find?]
  | cons p m ih =>
    by_cases h : p.1 = t
    · simp [upsertSig, h, lookupSig, List.find?]
    · simp only [upsertSig, if_neg h]
      simpa [lookupSig, List.find?, h] using ih

/-- One candidate qualifies for a call entry at this point of the scan: all
three rows present, the price/OI/liquidity conditions hold and the same-side
cooldown (relative to the given last call entry sequence) has passed. -/
def call_qualifies (tbl : Table) (cooldown lastCall t0 t1 t2 : ℤ)
    (exp : String) (k : ℚ) : Bool :=
  match lookupTbl tbl t0 exp k, lookupTbl tbl t1 exp k, lookupTbl tbl t2 exp k with
  | some r0, some r1, some r2 =>
    call_entry_ok r0 r1 r2 && decide (t2 - lastCall > cooldown)
  | _, _, _ => false

theorem stepStrike_call_qualifies (tbl : Table) (cd t0 t1 t2 : ℤ) (decr : Bool)
    (exp : String) (k : ℚ) (st : GenState)
    (hq : call_qualifies tbl cd st.lastCall t0 t1 t2 exp k = true) :
    (stepStrike tbl cd t0 t1 t2 true decr exp k st).callSigs
      = upsertSig st.callSigs t2 (exp, k) ∧
    (stepStrike tbl cd t0 t1 t2 true decr exp k st).lastCall = t2 := by
  rcases h0 : lookupTbl tbl t0 exp k with _ | r0 <;>
  rcases h1 : lookupTbl tbl t1 exp k with _ | r1 <;>
  rcases h2 : lookupTbl tbl t2 exp k with _ | r2 <;>
  simp only [call_qualifies, h0, h1, h2] at hq <;>
  first
  | (exfalso; revert hq; simp; done)
  | (have hcond : (true && (call_entry_ok r0 r1 r2
        && decide (t2 - st.lastCall > cd))) = true := by
      rw [Bool.true_and]
      exact hq
     simp only [stepStrike, h0, h1, h2]
     rw [if_pos hcond]
     exact ⟨by split <;> rfl, by split <;> rfl⟩)

theorem stepStrike_call_not_qualifies (tbl : Table) (cd t0 t1 t2 : ℤ) (decr : Bool)
    (exp : String) (k : ℚ) (st : GenState)
    (hq : call_qualifies tbl cd st.lastCall t0 t1 t2 exp k = false) :
    (stepStrike tbl cd t0 t1 t2 true decr exp k st).callSigs = st.callSigs ∧
    (stepStrike tbl cd t0 t1 t2 true decr exp k st).lastCall = st.lastCall := by
  rcases h0 : lookupTbl tbl t0 exp k with _ | r0 <;>
  rcases h1 : lookupTbl tbl t1 exp k with _ | r1 <;>
  rcases h2 : lookupTbl tbl t2 exp k with _ | r2 <;>
  simp only [call_qualifies, h0, h1, h2] at hq <;>
  first
  | (simp [stepStrike, h0, h1, h2]; done)
  | (have hcond : ¬((true && (call_entry_ok r0 r1 r2
        && decide (t2 - st.lastCall > cd))) = true) := by
      rw [Bool.true_and, hq]
      simp
     simp only [stepStrike, h0, h1, h2]
     rw [if_neg hcond]
     exact ⟨by split <;> rfl, by split <;> rfl⟩)

/-- One candidate qualifies for a put entry at this point of the scan: all
three rows present, the price/OI/liquidity conditions hold and the same-side
cooldown (relative to the given last put entry sequence) has passed. -/
def put_qualifies (tbl : Table) (cooldown lastPut t0 t1 t2 : ℤ)
    (exp : String) (k : ℚ) : Bool :=
  match lookupTbl tbl t0 exp k, lookupTbl tbl t1 exp k, lookupTbl tbl t2 exp k with
  | some r0, some r1, some r2 =>
    put_entry_ok r0 r1 r2 && decide (t2 - lastPut > cooldown)
  | _, _, _ => false

theorem stepStrike_put_qualifies (tbl : Table) (cd t0 t1 t2 : ℤ) (incr : Bool)
    (exp : String) (k : ℚ) (st : GenState)
    (hq : put_qualifies tbl cd st.lastPut t0 t1 t2 exp k = true) :
    (stepStrike tbl cd t0 t1 t2 incr true exp k st).putSigs
      = upsertSig st.putSigs t2 (exp, k) ∧
    (stepStrike tbl cd t0 t1 t2 incr true exp k st).lastPut = t2 := by
  rcases h0 : lookupTbl tbl t0 exp k with _ | r0 <;>
  rcases h1 : lookupTbl tbl t1 exp k with _ | r1 <;>
  rcases h2 : lookupTbl tbl t2 exp k with _ | r2 <;>
  simp only [put_qualifies, h0, h1, h2] at hq <;>
  first
  | (exfalso; revert hq; simp; done)
  | (simp only [stepStrike, h0, h1, h2]
     by_cases hcall : (incr && (call_entry_ok r0 r1 r2
        && decide (t2 - st.lastCall > cd))) = true
     · rw [if_pos hcall]
       simp only [Bool.true_and]
       rw [if_pos hq]
       exact ⟨rfl, rfl⟩
     · rw [if_neg hcall]
       simp only [Bool.true_and]
       rw [if_pos hq]
       exact ⟨rfl, rfl⟩)

theorem stepStrike_put_not_qualifies (tbl : Table) (cd t0 t1 t2 : ℤ) (incr : Bool)
    (exp : String) (k : ℚ) (st : GenState)
    (hq : put_qualifies tbl cd st.lastPut t0 t1 t2 exp k = false) :
    (stepStrike tbl cd t0 t1 t2 incr true exp k st).putSigs = st.putSigs ∧
    (stepStrike tbl cd t0 t1 t2 incr true exp k st).lastPut = st.lastPut := by
  rcases h0 : lookupTbl tbl t0 exp k with _ | r0 <;>
  rcases h1 : lookupTbl tbl t1 exp k with _ | r1 <;>
  rcases h2 : lookupTbl tbl t2 exp k with _ | r2 <;>
  simp only [put_qualifies, h0, h1, h2] at hq <;>
  first
  | (simp [stepStrike, h0, h1, h2]
     done)
  | (have hncond : ¬((put_entry_ok r0 r1 r2
        && decide (t2 - st.lastPut > cd)) = true) := by
      rw [hq]
      simp
     simp only [stepStrike, h0, h1, h2]
     by_cases hcall : (incr && (call_entry_ok r0 r1 r2
        && decide (t2 - st.lastCall > cd))) = true
     · rw [if_pos hcall]
       simp only [Bool.true_and]
       rw [if_neg hncond]
       exact ⟨rfl, rfl⟩
     · rw [if_neg hcall]
       simp only [Bool.true_and]
       rw [if_neg hncond]
       exact ⟨rfl, rfl⟩)

/-- Once a call signal is recorded at t2 (lastCall = t2), no later candidate in
the same scan can touch the call side again for a nonnegative cooldown. -/
theorem foldPairs_call_frozen (tbl : Table) (cd t0 t1 t2 : ℤ) (decr : Bool)
    (hcd : 0 ≤ cd) :
    ∀ (ps : List (String × ℚ)) (st : GenState), st.lastCall = t2 →
      ((List.foldl (fun s p => stepStrike tbl cd t0 t1 t2 true decr p.1 p.2 s)
        st ps).callSigs = st.callSigs ∧
      (List.foldl (fun s p => stepStrike tbl cd t0 t1 t2 true decr p.1 p.2 s)
        st ps).lastCall = st.lastCall) := by
  intro ps
  induction ps with
  | nil => intro st h; exact ⟨rfl, rfl⟩
  | cons p ps ih =>
    intro st h
    have hq : call_qualifies tbl cd st.lastCall t0 t1 t2 p.1 p.2 = false := by
      rcases h0 : lookupTbl tbl t0 p.1 p.2 with _ | r0 <;>
      rcases h1 : lookupTbl tbl t1 p.1 p.2 with _ | r1 <;>
      rcases h2 : lookupTbl tbl t2 p.1 p.2 with _ | r2 <;>
      simp only [call_qualifies, h0, h1, h2] <;>
      try rfl
      have hdec : decide (t2 - st.lastCall > cd) = false := by
        rw [h]
        simp only [decide_eq_false_iff_not]
        omega
      rw [hdec, Bool.and_false]
    have hstep := stepStrike_call_not_qualifies tbl cd t0 t1 t2 decr p.1 p.2 st hq
    have hrest := ih (stepStrike tbl cd t0 t1 t2 true decr p.1 p.2 st)
      (by rw [hstep.2, h])
    rw [List.foldl_cons]
    exact ⟨hrest.1.trans hstep.1, hrest.2.trans hstep.2⟩

/-- Once a put signal is recorded at t2 (lastPut = t2), no later candidate in
the same scan can touch the put side again for a nonnegative cooldown. -/
theorem foldPairs_put_frozen (tbl : Table) (cd t0 t1 t2 : ℤ) (incr : Bool)
    (hcd : 0 ≤ cd) :
    ∀ (ps : List (String × ℚ)) (st : GenState), st.lastPut = t2 →
      ((List.foldl (fun s p => stepStrike tbl cd t0 t1 t2 incr true p.1 p.2 s)
        st ps).putSigs = st.putSigs ∧
      (List.foldl (fun s p => stepStrike tbl cd t0 t1 t2 incr true p.1 p.2 s)
        st ps).lastPut = st.lastPut) := by
  intro ps
  induction ps with
  | nil => intro st h; exact ⟨rfl, rfl⟩
  | cons p ps ih =>
    intro st h
    have hq : put_qualifies tbl cd st.lastPut t0 t1 t2 p.1 p.2 = false := by
      rcases h0 : lookupTbl tbl t0 p.1 p.2 with _ | r0 <;>
      rcases h1 : lookupTbl tbl t1 p.1 p.2 with _ | r1 <;>
      rcases h2 : lookupTbl tbl t2 p.1 p.2 with _ | r2 <;>
      simp only [put_qualifies, h0, h1, h2] <;>
      try rfl
      have hdec : decide (t2 - st.lastPut > cd) = false := by
        rw [h]
        simp only [decide_eq_false_iff_not]
        omega
      rw [hdec, Bool.and_false]
    have hstep := stepStrike_put_not_qualifies tbl cd t0 t1 t2 incr p.1 p.2 st hq
    have hrest := ih (stepStrike tbl cd t0 t1 t2 incr true p.1 p.2 st)
      (by rw [hstep.2, h])
    rw [List.foldl_cons]
    exact ⟨hrest.1.trans hstep.1, hrest.2.trans hstep.2⟩

/-- Scanning a candidate list, the retained call signal at t2 is the first
qualifying candidate in iteration order. -/
theorem foldPairs_call_find (tbl : Table) (cd t0 t1 t2 : ℤ) (decr : Bool)
    (hcd : 0 ≤ cd) :
    ∀ (ps : List (String × ℚ)) (st : GenState),
      lookupSig st.callSigs t2 = none →
      lookupSig ((List.foldl (fun s p => stepStrike tbl cd t0 t1 t2 true decr p.1 p.2 s)
          st ps).callSigs) t2
        = ps.find? (fun p => call_qualifies tbl cd st.lastCall t0 t1 t2 p.1 p.2) := by
  intro ps
  induction ps with
  | nil => intro st hnone; simpa using hnone
  | cons p ps ih =>
    intro st hnone
    rw [List.foldl_cons]
    cases hq : call_qualifies tbl cd st.lastCall t0 t1 t2 p.1 p.2 with
    | true =>
      rw [List.find?_cons_of_pos]
      · have hstep := stepStrike_call_qualifies tbl cd t0 t1 t2 decr p.1 p.2 st hq
        have hfrozen := foldPairs_call_frozen tbl cd t0 t1 t2 decr hcd ps
          (stepStrike tbl cd t0 t1 t2 true decr p.1 p.2 st) hstep.2
        rw [hfrozen.1, hstep.1, lookupSig_upsert]
      · exact hq
    | false =>
      rw [List.find?_cons_of_neg]
      · have hstep := stepStrike_call_not_qualifies tbl cd t0 t1 t2 decr p.1 p.2 st hq
        have hrest := ih (stepStrike tbl cd t0 t1 t2 true decr p.1 p.2 st)
          (by rw [hstep.1]; exact hnone)
        rw [hrest, hstep.2]
      · simp only [Bool.not_eq_true]
        exact hq

/-- Scanning a candidate list, the retained put signal at t2 is the first
qualifying candidate in iteration order. -/
theorem foldPairs_put_find (tbl : Table) (cd t0 t1 t2 : ℤ) (incr : Bool)
    (hcd : 0 ≤ cd) :
    ∀ (ps : List (String × ℚ)) (st : GenState),
      lookupSig st.putSigs t2 = none →
      lookupSig ((List.foldl (fun s p => stepStrike tbl cd t0 t1 t2 incr true p.1 p.2 s)
          st ps).putSigs) t2
        = ps.find? (fun p => put_qualifies tbl cd st.lastPut t0 t1 t2 p.1 p.2) := by
  intro ps
  induction ps with
  | nil => intro st hnone; simpa using hnone
  | cons p ps ih =>
    intro st hnone
    rw [List.foldl_cons]
    cases hq : put_qualifies tbl cd st.lastPut t0 t1 t2 p.1 p.2 with
    | true =>
      rw [List.find?_cons_of_pos]
      · have hstep := stepStrike_put_qualifies tbl cd t0 t1 t2 incr p.1 p.2 st hq
        have hfrozen := foldPairs_put_frozen tbl cd t0 t1 t2 incr hcd ps
          (stepStrike tbl cd t0 t1 t2 incr true p.1 p.2 st) hstep.2
        rw [hfrozen.1, hstep.1, lookupSig_upsert]
      · exact hq
    | false =>
      rw [List.find?_cons_of_neg]
      · have hstep := stepStrike_put_not_qualifies tbl cd t0 t1 t2 incr p.1 p.2 st hq
        have hrest := ih (stepStrike tbl cd t0 t1 t2 incr true p.1 p.2 st)
          (by rw [hstep.1]; exact hnone)
        rw [hrest, hstep.2]
      · simp only [Bool.not_eq_true]
        exact hq

/-- The nested expiry/strike double fold of one triple equals a single fold
over the flattened (expiry, strike) candidate list in iteration order. -/
theorem foldl_nested_pairs {α β σ : Type} (g : α → List β) (f : α → β → σ → σ) :
    ∀ (exps : List α) (st : σ),
      List.foldl (fun s1 e => List.foldl (fun s2 k => f e k s2) s1 (g e)) st exps
        = List.foldl (fun s p => f p.1 p.2 s) st
            (exps.flatMap (fun e => (g e).map (fun k => (e, k)))) := by
  intro exps
  induction exps with
  | nil => intro st; rfl
  | cons e rest ih =>
    intro st
    rw [List.foldl_cons, ih, List.flatMap_cons, List.foldl_append, List.foldl_map]

/-- All (expiry, strike) candidates of one triple, in the exact iteration order
of generate_signals: expiries at t0 in order of appearance, and for each, its
strikes in order of appearance. -/
def tripleCandidates (tbl : Table) (t0 : ℤ) : List (String × ℚ) :=
  (expsAt tbl t0).flatMap (fun e => (strikesAt tbl t0 e).map (fun k => (e, k)))

/-- C8 amended: over the FULL iteration order of one triple (all expiries at
t0, and for each all its strikes), the call signal retained at t2 when the
underlying increases, and the put signal retained at t2 when the underlying
decreases, is in each case the FIRST qualifying candidate in iteration order:
recording a signal sets that side's last-entry sequence to t2, which
cooldown-blocks every later candidate at the same t2 for any nonnegative
cooldown.  At most one call and one put signal per sequence is retained since
the signal maps are keyed by sequence. -/
theorem C8_first_qualifying_wins (tbl : Table) (cd t0 t1 t2 : ℤ) (u0 u1 u2 : ℚ)
    (st : GenState) (hcd : 0 ≤ cd)
    (h0 : underBySnap tbl t0 = some u0) (h1 : underBySnap tbl t1 = some u1)
    (h2 : underBySnap tbl t2 = some u2)
    (hc : lookupSig st.callSigs t2 = none) (hp : lookupSig st.putSigs t2 = none) :
    (u2 > u0 →
      lookupSig ((stepTriple tbl cd st (t0, t1, t2)).callSigs) t2
        = (tripleCandidates tbl t0).find?
            (fun p => call_qualifies tbl cd st.lastCall t0 t1 t2 p.1 p.2)) ∧
    (u2 < u0 →
      lookupSig ((stepTriple tbl cd st (t0, t1, t2)).putSigs) t2
        = (tripleCandidates tbl t0).find?
            (fun p => put_qualifies tbl cd st.lastPut t0 t1 t2 p.1 p.2)) := by
  constructor
  · intro hu
    have hincr : decide (u2 > u0) = true := decide_eq_true hu
    simp only [stepTriple, h0, h1, h2]
    rw [hincr, foldl_nested_pairs]
    exact foldPairs_call_find tbl cd t0 t1 t2 (decide (u2 < u0)) hcd
      (tripleCandidates tbl t0) st hc
  · intro hu
    have hdecr : decide (u2 < u0) = true := decide_eq_true hu
    simp only [stepTriple, h0, h1, h2]
    rw [hdecr, foldl_nested_pairs]
    exact foldPairs_put_find tbl cd t0 t1 t2 (decide (u2 > u0)) hcd
      (tripleCandidates tbl t0) st hp

def tbl8 : Table :=
  [⟨0, "E", 100, row_ 100 10 0 0 100 0⟩,
   ⟨0, "E", 200, row_ 100 20 0 0 100 0⟩,
   ⟨1, "E", 100, row_ 110 10.2 0 0 101 1⟩,
   ⟨1, "E", 200, row_ 110 21 0 0 101 1⟩,
   ⟨2, "E", 100, row_ 120 10.4 0 0 103 2⟩,
   ⟨2, "E", 200, row_ 120 22 0 0 103 2⟩]

/-- C8 counterexample: strikes 100 and 200 both satisfy every entry condition at
t2 = 2 (strike 200 is evaluated later in iteration order and passes the
price/OI/liquidity checks), yet the retained signal is the FIRST qualifying
strike 100, not the later one: recording the first signal sets the same-side
last-entry sequence to t2 and cooldown-blocks the rest. -/
theorem C8_counterexample :
    call_entry_ok (row_ 100 20 0 0 100 0) (row_ 110 21 0 0 101 1)
      (row_ 120 22 0 0 103 2) = true ∧
    strikesAt tbl8 0 "E" = [100, 200] ∧
    (100 : ℚ) ≠ 200 ∧
    lookupSig (generate_signals tbl8 DEFAULT_COOLDOWN).1 2 = some ("E", 100) := by
  refine ⟨by norm_num [call_entry_ok, row_], ?_, by norm_num, ?_⟩
  · norm_num [strikesAt, uniqueFirst, uniqueFirstAux, tbl8, List.filter, row_]
  · norm_num [generate_signals, snapList, uniqueFirst, uniqueFirstAux, triplesOf,
      stepTriple, stepStrike, underBySnap, expsAt, strikesAt, lookupTbl, lookupSig,
      upsertSig, call_entry_ok, put_entry_ok, List.insertionSort, List.orderedInsert,
      List.find?, List.filter, tbl8, row_, DEFAULT_COOLDOWN]

def tbl5p : Table :=
  [⟨0, "E", 100, row_ 0 0 100 10 103 0⟩,
   ⟨1, "E", 100, row_ 0 0 110 10.2 101 1⟩,
   ⟨2, "E", 100, row_ 0 0 120 10.4 100 2⟩]

/-- C8 witness: the amended theorem instantiated on a triple with increasing
underlying (call side, two qualifying strikes) and on a triple with decreasing
underlying (put side). -/
theorem C8_first_qualifying_wins_witness :
    lookupSig ((stepTriple tbl8 20 ⟨[], [], -9999, -9999⟩ (0, 1, 2)).callSigs) 2
      = (tripleCandidates tbl8 0).find?
          (fun p => call_qualifies tbl8 20 (-9999) 0 1 2 p.1 p.2) ∧
    lookupSig ((stepTriple tbl5p 20 ⟨[], [], -9999, -9999⟩ (0, 1, 2)).putSigs) 2
      = (tripleCandidates tbl5p 0).find?
          (fun p => put_qualifies tbl5p 20 (-9999) 0 1 2 p.1 p.2) := by
  constructor
  · exact (C8_first_qualifying_wins tbl8 20 0 1 2 100 101 103 ⟨[], [], -9999, -9999⟩
      (by decide) rfl rfl rfl rfl rfl).1 (by norm_num)
  · exact (C8_first_qualifying_wins tbl5p 20 0 1 2 103 101 100 ⟨[], [], -9999, -9999⟩
      (by decide) rfl rfl rfl rfl rfl).2 (by norm_num)

/-- C5 amended: each side has its own cooldown state, and the same-side
cooldown admits a candidate exactly when STRICTLY more than `cooldown`
sequence-steps have elapsed since the last entry signal of that side (at
exactly `cooldown` elapsed steps the candidate is blocked), on the call side
and on the put side; and evaluate_signal returns the cooldown NO_SIGNAL for
any new entry, regardless of side, when the latest sequence is at most
`cooldown` steps after last_buy_snapshot_seq. -/
theorem C5_cooldown_semantics :
    (∀ (tbl : Table) (cd t0 t1 t2 : ℤ) (decr : Bool) (exp : String) (k : ℚ)
        (st : GenState) (r0 r1 r2 : Row),
      lookupTbl tbl t0 exp k = some r0 →
      lookupTbl tbl t1 exp k = some r1 →
      lookupTbl tbl t2 exp k = some r2 →
      lookupSig st.callSigs t2 = none →
      (lookupSig ((stepStrike tbl cd t0 t1 t2 true decr exp k st).callSigs) t2
          = some (exp, k)
        ↔ (call_entry_ok r0 r1 r2 = true ∧ t2 - st.lastCall > cd))) ∧
    (∀ (tbl : Table) (cd t0 t1 t2 : ℤ) (incr : Bool) (exp : String) (k : ℚ)
        (st : GenState) (r0 r1 r2 : Row),
      lookupTbl tbl t0 exp k = some r0 →
      lookupTbl tbl t1 exp k = some r1 →
      lookupTbl tbl t2 exp k = some r2 →
      lookupSig st.putSigs t2 = none →
      (lookupSig ((stepStrike tbl cd t0 t1 t2 incr true exp k st).putSigs) t2
          = some (exp, k)
        ↔ (put_entry_ok r0 r1 r2 = true ∧ t2 - st.lastPut > cd))) ∧
    (∀ (tbl : Table) (pt pe : Option String) (ps ep : Option ℚ) (es : Option ℤ)
        (lbs cd : ℤ),
      3 ≤ (snapList tbl).length →
      latest_seq_of tbl - lbs ≤ cd →
      evaluate_signal tbl false pt pe ps ep es (some lbs) cd
        = .noSignal (.cooldownActive (latest_seq_of tbl - lbs) cd)) := by
  refine ⟨?_, ?_, ?_⟩
  · intro tbl cd t0 t1 t2 decr exp k st r0 r1 r2 h0 h1 h2 hnone
    constructor
    · intro hres
      cases hq : call_qualifies tbl cd st.lastCall t0 t1 t2 exp k with
      | false =>
        have hstep := stepStrike_call_not_qualifies tbl cd t0 t1 t2 decr exp k st hq
        rw [hstep.1, hnone] at hres
        exact Option.noConfusion hres
      | true =>
        simp only [call_qualifies, h0, h1, h2, Bool.and_eq_true,
          decide_eq_true_eq] at hq
        exact hq
    · intro hcond
      have hq : call_qualifies tbl cd st.lastCall t0 t1 t2 exp k = true := by
        simp only [call_qualifies, h0, h1, h2, Bool.and_eq_true, decide_eq_true_eq]
        exact hcond
      have hstep := stepStrike_call_qualifies tbl cd t0 t1 t2 decr exp k st hq
      rw [hstep.1, lookupSig_upsert]
  · intro tbl cd t0 t1 t2 incr exp k st r0 r1 r2 h0 h1 h2 hnone
    constructor
    · intro hres
      cases hq : put_qualifies tbl cd st.lastPut t0 t1 t2 exp k with
      | false =>
        have hstep := stepStrike_put_not_qualifies tbl cd t0 t1 t2 incr exp k st hq
        rw [hstep.1, hnone] at hres
        exact Option.noConfusion hres
      | true =>
        simp only [put_qualifies, h0, h1, h2, Bool.and_eq_true,
          decide_eq_true_eq] at hq
        exact hq
    · intro hcond
      have hq : put_qualifies tbl cd st.lastPut t0 t1 t2 exp k = true := by
        simp only [put_qualifies, h0, h1, h2, Bool.and_eq_true, decide_eq_true_eq]
        exact hcond
      have hstep := stepStrike_put_qualifies tbl cd t0 t1 t2 incr exp k st hq
      rw [hstep.1, lookupSig_upsert]
  · intro tbl pt pe ps ep es lbs cd hlen hsince
    simp only [latest_seq_of] at hsince
    simp only [evaluate_signal]
    rw [if_neg (not_lt.2 hlen)]
    simp only [Bool.false_and, Bool.false_eq_true, if_false]
    rw [if_pos hsince]
    simp [latest_seq_of]

/-- C5 witness: the step admits the qualifying call candidate of tbl7b and the
qualifying put candidate of tbl5p (elapsed steps from the initial sentinel
exceed the cooldown), and evaluate_signal blocks a new entry 5 steps after a
recorded buy. -/
theorem C5_cooldown_semantics_witness :
    lookupSig ((stepStrike tbl7b 20 0 1 2 true false "E" 100
        ⟨[], [], -9999, -9999⟩).callSigs) 2 = some ("E", 100) ∧
    lookupSig ((stepStrike tbl5p 20 0 1 2 false true "E" 100
        ⟨[], [], -9999, -9999⟩).putSigs) 2 = some ("E", 100) ∧
    evaluate_signal tbl7b false none none none none none (some (-3)) 20
      = .noSignal (.cooldownActive (latest_seq_of tbl7b - (-3)) 20) := by
  refine ⟨?_, ?_, ?_⟩
  · exact (C5_cooldown_semantics.1 tbl7b 20 0 1 2 false "E" 100 ⟨[], [], -9999, -9999⟩
      (row_ 100 10 0 0 100 0) (row_ 110 10.2 0 0 101 1) (row_ 120 10.4 0 0 103 2)
      rfl rfl rfl rfl).mpr ⟨by norm_num [call_entry_ok, row_], by decide⟩
  · exact (C5_cooldown_semantics.2.1 tbl5p 20 0 1 2 false "E" 100
      ⟨[], [], -9999, -9999⟩
      (row_ 0 0 100 10 103 0) (row_ 0 0 110 10.2 101 1) (row_ 0 0 120 10.4 100 2)
      rfl rfl rfl rfl).mpr ⟨by norm_num [put_entry_ok, row_], by decide⟩
  · exact C5_cooldown_semantics.2.2 tbl7b none none none none none (-3) 20
      (by decide) (by decide)

def tblC5 : Table :=
  [⟨0, "E", 100, row_ 100 10 0 0 100 0⟩,
   ⟨1, "E", 100, row_ 110 10.2 0 0 101 1⟩,
   ⟨2, "E", 100, row_ 120 10.4 0 0 102 2⟩,
   ⟨3, "E", 100, row_ 120 10.4 0 0 103 3⟩,
   ⟨4, "E", 100, row_ 120 10.4 0 0 104 4⟩,
   ⟨5, "E", 100, row_ 120 10.4 0 0 105 5⟩,
   ⟨6, "E", 100, row_ 120 10.4 0 0 106 6⟩,
   ⟨7, "E", 100, row_ 120 10.4 0 0 107 7⟩,
   ⟨8, "E", 100, row_ 120 10.4 0 0 108 8⟩,
   ⟨9, "E", 100, row_ 120 10.4 0 0 109 9⟩,
   ⟨10, "E", 100, row_ 120 10.4 0 0 110 10⟩,
   ⟨11, "E", 100, row_ 120 10.4 0 0 111 11⟩,
   ⟨12, "E", 100, row_ 120 10.4 0 0 112 12⟩,
   ⟨13, "E", 100, row_ 120 10.4 0 0 113 13⟩,
   ⟨14, "E", 100, row_ 120 10.4 0 0 114 14⟩,
   ⟨15, "E", 100, row_ 120 10.4 0 0 115 15⟩,
   ⟨16, "E", 100, row_ 120 10.4 0 0 116 16⟩,
   ⟨17, "E", 100, row_ 120 10.4 0 0 117 17⟩,
   ⟨18, "E", 100, row_ 120 10.4 0 0 118 18⟩,
   ⟨19, "E", 100, row_ 120 10.4 0 0 119 19⟩,
   ⟨20, "E", 100, row_ 120 10.5 0 0 120 20⟩,
   ⟨21, "E", 100, row_ 120 10.8 0 0 121 21⟩,
   ⟨22, "E", 100, row_ 130 11.2 0 0 122 22⟩]

set_option maxHeartbeats 4000000 in
/-- C5 counterexample: a call entry signal is recorded at sequence 2; at
sequence 22 the same strike again satisfies every price/OI/liquidity entry
condition with the underlying increasing, and exactly 20 sequence-steps have
elapsed since the last same-side signal, yet no signal is produced at 22 -
the code requires strictly more than `cooldown` elapsed steps. -/
theorem C5_counterexample :
    lookupSig (generate_signals tblC5 DEFAULT_COOLDOWN).1 2 = some ("E", 100) ∧
    call_entry_ok (row_ 120 10.5 0 0 120 20) (row_ 120 10.8 0 0 121 21)
      (row_ 130 11.2 0 0 122 22) = true ∧
    (22 : ℤ) - 2 ≥ DEFAULT_COOLDOWN ∧
    lookupSig (generate_signals tblC5 DEFAULT_COOLDOWN).1 22 = none := by
  refine ⟨?_, by norm_num [call_entry_ok, row_], by decide, ?_⟩ <;>
  norm_num [generate_signals, snapList, uniqueFirst, uniqueFirstAux, triplesOf,
    stepTriple, stepStrike, underBySnap, expsAt, strikesAt, lookupTbl, lookupSig,
    upsertSig, call_entry_ok, put_entry_ok, List.insertionSort, List.orderedInsert,
    List.find?, List.filter, tblC5, row_, DEFAULT_COOLDOWN]

/-! ## Properties of the snapshot sequence assignment -/

theorem tsLtKey_irrefl (k : SnapKey) : ¬tsLtKey k k := by
  unfold tsLtKey
  omega

theorem tsLt_tsLe_absurd {a b : SnapKey} (h1 : tsLtKey a b) (h2 : tsLeKey b a) :
    False := by
  unfold tsLtKey at h1
  unfold tsLeKey at h2
  omega

theorem tsLt_of_tsLe_of_ts_ne {a b : SnapKey} (h1 : tsLeKey a b)
    (h2 : SnapKey.ts a ≠ SnapKey.ts b) : tsLtKey a b := by
  unfold tsLeKey at h1
  unfold tsLtKey
  unfold SnapKey.ts at h2
  rw [ne_eq, Prod.mk.injEq, not_and_or] at h2
  rcases h2 with h2 | h2 <;> omega

theorem mem_snap_keys (rows : List RawRow) (k : SnapKey) :
    k ∈ snap_keys rows ↔ ∃ r ∈ rows, RawRow.key r = k := by
  unfold snap_keys
  rw [List.mem_insertionSort, mem_uniqueFirst, List.mem_map]
  constructor
  · rintro ⟨r, hr, rfl⟩
    exact ⟨r, (List.mem_insertionSort rowLe).1 hr, rfl⟩
  · rintro ⟨r, hr, rfl⟩
    exact ⟨r, (List.mem_insertionSort rowLe).2 hr, rfl⟩

theorem nodup_snap_keys (rows : List RawRow) : (snap_keys rows).Nodup := by
  unfold snap_keys
  rw [(List.perm_insertionSort tsLeKey _).nodup_iff]
  exact nodup_uniqueFirst _

theorem sorted_snap_keys (rows : List RawRow) :
    List.Sorted tsLeKey (snap_keys rows) :=
  List.sorted_insertionSort tsLeKey _

theorem sorted_tsLt_of_sorted_tsLe :
    ∀ (l : List SnapKey), List.Sorted tsLeKey l → l.Nodup →
      (∀ k1 ∈ l, ∀ k2 ∈ l, k1 ≠ k2 → SnapKey.ts k1 ≠ SnapKey.ts k2) →
      List.Sorted tsLtKey l := by
  intro l
  induction l with
  | nil => intro _ _ _; exact List.sorted_nil
  | cons a l ih =>
    intro hs hn hts
    rw [List.sorted_cons] at hs ⊢
    rw [List.nodup_cons] at hn
    constructor
    · intro b hb
      have hne : a ≠ b := fun h => hn.1 (h ▸ hb)
      exact tsLt_of_tsLe_of_ts_ne (hs.1 b hb)
        (hts a (List.mem_cons_self _ _) b (List.mem_cons_of_mem _ hb) hne)
    · exact ih hs.2 hn.2 (fun k1 h1 k2 h2 =>
        hts k1 (List.mem_cons_of_mem _ h1) k2 (List.mem_cons_of_mem _ h2))

theorem snap_keys_perm_eq (rows rows2 : List RawRow) (hperm : List.Perm rows rows2)
    (hts : ∀ k1 ∈ rows.map RawRow.key, ∀ k2 ∈ rows.map RawRow.key,
      k1 ≠ k2 → SnapKey.ts k1 ≠ SnapKey.ts k2) :
    snap_keys rows = snap_keys rows2 := by
  have hmem1 : ∀ k, k ∈ snap_keys rows ↔ k ∈ rows.map RawRow.key := by
    intro k
    rw [mem_snap_keys, List.mem_map]
  have hmem2 : ∀ k, k ∈ snap_keys rows2 ↔ k ∈ rows2.map RawRow.key := by
    intro k
    rw [mem_snap_keys, List.mem_map]
  have hpk : List.Perm (rows.map RawRow.key) (rows2.map RawRow.key) := hperm.map _
  have hp : List.Perm (snap_keys rows) (snap_keys rows2) := by
    rw [List.perm_ext_iff_of_nodup (nodup_snap_keys rows) (nodup_snap_keys rows2)]
    intro k
    rw [hmem1, hmem2]
    exact ⟨fun h => hpk.mem_iff.1 h, fun h => hpk.mem_iff.2 h⟩
  have hsub1 : ∀ k ∈ snap_keys rows, k ∈ rows.map RawRow.key :=
    fun k hk => (hmem1 k).1 hk
  have hsub2 : ∀ k ∈ snap_keys rows2, k ∈ rows.map RawRow.key :=
    fun k hk => hpk.mem_iff.2 ((hmem2 k).1 hk)
  have hs1 : List.Sorted tsLtKey (snap_keys rows) :=
    sorted_tsLt_of_sorted_tsLe _ (sorted_snap_keys rows) (nodup_snap_keys rows)
      (fun k1 h1 k2 h2 => hts k1 (hsub1 k1 h1) k2 (hsub1 k2 h2))
  have hs2 : List.Sorted tsLtKey (snap_keys rows2) :=
    sorted_tsLt_of_sorted_tsLe _ (sorted_snap_keys rows2) (nodup_snap_keys rows2)
      (fun k1 h1 k2 h2 => hts k1 (hsub2 k1 h1) k2 (hsub2 k2 h2))
  exact List.eq_of_perm_of_sorted hp hs1 hs2

/-- C6 amended: the sequence assignment of prepare_data gives every row a
sequence that indexes into the snap-key list (dense 0..K-1: every row maps
below K and every index below K is hit), strictly ordered by timestamp, and
independent of input row order whenever distinct keys carry distinct
timestamps.  Distinct (date, id) pairs at one timestamp get DISTINCT
sequences, not one shared sequence. -/
theorem C6_sequence_assignment :
    (∀ (rows : List RawRow) (r : RawRow), r ∈ rows →
      RawRow.key r ∈ snap_keys rows ∧
      snapshot_seq_of rows (RawRow.key r) < (snap_keys rows).length) ∧
    (∀ (rows : List RawRow) (i : ℕ), i < (snap_keys rows).length →
      ∃ r ∈ rows, snapshot_seq_of rows (RawRow.key r) = i) ∧
    (∀ (rows : List RawRow) (r1 r2 : RawRow), r1 ∈ rows → r2 ∈ rows →
      tsLtKey (RawRow.key r1) (RawRow.key r2) →
      snapshot_seq_of rows (RawRow.key r1) < snapshot_seq_of rows (RawRow.key r2)) ∧
    (∀ (rows rows2 : List RawRow), List.Perm rows rows2 →
      (∀ k1 ∈ rows.map RawRow.key, ∀ k2 ∈ rows.map RawRow.key,
        k1 ≠ k2 → SnapKey.ts k1 ≠ SnapKey.ts k2) →
      ∀ r : RawRow,
        snapshot_seq_of rows (RawRow.key r) = snapshot_seq_of rows2 (RawRow.key r)) := by
  refine ⟨?_, ?_, ?_, ?_⟩
  · intro rows r hr
    have hmem : RawRow.key r ∈ snap_keys rows := (mem_snap_keys rows _).2 ⟨r, hr, rfl⟩
    exact ⟨hmem, List.indexOf_lt_length.2 hmem⟩
  · intro rows i hi
    have hget : (snap_keys rows).get ⟨i, hi⟩ ∈ snap_keys rows := List.get_mem _ _ hi
    obtain ⟨r, hr, hkey⟩ := (mem_snap_keys rows _).1 hget
    refine ⟨r, hr, ?_⟩
    show List.indexOf (RawRow.key r) (snap_keys rows) = i
    rw [hkey]
    exact List.get_indexOf (nodup_snap_keys rows) ⟨i, hi⟩
  · intro rows r1 r2 h1 h2 hlt
    have hm1 : RawRow.key r1 ∈ snap_keys rows := (mem_snap_keys rows _).2 ⟨r1, h1, rfl⟩
    have hm2 : RawRow.key r2 ∈ snap_keys rows := (mem_snap_keys rows _).2 ⟨r2, h2, rfl⟩
    have hi1 : List.indexOf (RawRow.key r1) (snap_keys rows) < (snap_keys rows).length :=
      List.indexOf_lt_length.2 hm1
    have hi2 : List.indexOf (RawRow.key r2) (snap_keys rows) < (snap_keys rows).length :=
      List.indexOf_lt_length.2 hm2
    show List.indexOf (RawRow.key r1) (snap_keys rows)
      < List.indexOf (RawRow.key r2) (snap_keys rows)
    by_contra hcon
    push_neg at hcon
    rcases lt_or_eq_of_le hcon with hlt2 | heq
    · have hrel := (sorted_snap_keys rows).rel_get_of_lt
        (a := ⟨_, hi2⟩) (b := ⟨_, hi1⟩) (Fin.mk_lt_mk.2 hlt2)
      have e1 : (snap_keys rows).get ⟨_, hi1⟩ = RawRow.key r1 := by
        rw [List.get_eq_getElem]
        exact List.getElem_indexOf hi1
      have e2 : (snap_keys rows).get ⟨_, hi2⟩ = RawRow.key r2 := by
        rw [List.get_eq_getElem]
        exact List.getElem_indexOf hi2
      rw [e1, e2] at hrel
      exact tsLt_tsLe_absurd hlt hrel
    · have hk : RawRow.key r2 = RawRow.key r1 := (List.indexOf_inj hm2 hm1).1 heq
      rw [hk] at hlt
      exact tsLtKey_irrefl _ hlt
  · intro rows rows2 hperm hts r
    show List.indexOf _ (snap_keys rows) = List.indexOf _ (snap_keys rows2)
    rw [snap_keys_perm_eq rows rows2 hperm hts]

def r6a : RawRow :=
  { dl_date := 0, dl_time := 0, snapshot_id := 1, expiry := "E", strike := 100,
    c_OI := 0, c_LTP := 0, p_OI := 0, p_LTP := 0, underlying := 0 }

def r6b : RawRow :=
  { dl_date := 0, dl_time := 0, snapshot_id := 2, expiry := "E", strike := 100,
    c_OI := 0, c_LTP := 0, p_OI := 0, p_LTP := 0, underlying := 0 }

def r6c : RawRow :=
  { dl_date := 0, dl_time := 60, snapshot_id := 2, expiry := "E", strike := 100,
    c_OI := 0, c_LTP := 0, p_OI := 0, p_LTP := 0, underlying := 0 }

def rows6 : List RawRow := [r6a, r6b]

/-- C6 counterexample: two rows with the SAME timestamp but distinct snapshot
ids are assigned the distinct sequences 0 and 1, not grouped into one. -/
theorem C6_counterexample :
    SnapKey.ts (RawRow.key r6a) = SnapKey.ts (RawRow.key r6b) ∧
    RawRow.key r6a ≠ RawRow.key r6b ∧
    snapshot_seq_of rows6 (RawRow.key r6a) = 0 ∧
    snapshot_seq_of rows6 (RawRow.key r6b) = 1 := by
  refine ⟨by decide, by decide, by decide, by decide⟩

/-- C6 witness: the amended theorem instantiated on concrete batches, including
a permuted pair with distinct timestamps yielding the same assignment. -/
theorem C6_sequence_assignment_witness :
    RawRow.key r6a ∈ snap_keys rows6 ∧
    (∃ r ∈ rows6, snapshot_seq_of rows6 (RawRow.key r) = 0) ∧
    snapshot_seq_of [r6a, r6c] (RawRow.key r6a)
      < snapshot_seq_of [r6a, r6c] (RawRow.key r6c) ∧
    snapshot_seq_of [r6a, r6c] (RawRow.key r6a)
      = snapshot_seq_of [r6c, r6a] (RawRow.key r6a) := by
  refine ⟨(C6_sequence_assignment.1 rows6 r6a (by decide)).1, ?_, ?_, ?_⟩
  · refine C6_sequence_assignment.2.1 rows6 0 ?_
    have := (C6_sequence_assignment.1 rows6 r6a (by decide)).2
    omega
  · exact C6_sequence_assignment.2.2.1 [r6a, r6c] r6a r6c (by decide) (by decide)
      (by decide)
  · exact C6_sequence_assignment.2.2.2 [r6a, r6c] [r6c, r6a]
      (List.Perm.swap r6c r6a []) (by decide) r6a
